import Mathlib

/-!
Shallow embedding of the Subzero ELF object writer
(`src/IceELFObjectWriter.cpp`) and proofs of the specification claims.

The byte sink (`ELFStreamer`) is modelled as a `List Nat` of bytes whose
write position is its length; the single final `seek(0)` header patch is
modelled as an overwrite of the file's front bytes.  Sections are Lean
structures; pointer identity between sections is modelled by a numeric
`id` field, and pointer comparison by equality of ids.
-/

namespace Ice

/-- ELF section type SHT_NULL. -/
def SHT_NULL : Nat := 0

/-- ELF section type SHT_PROGBITS. -/
def SHT_PROGBITS : Nat := 1

/-- ELF section type SHT_SYMTAB. -/
def SHT_SYMTAB : Nat := 2

/-- ELF section type SHT_STRTAB. -/
def SHT_STRTAB : Nat := 3

/-- ELF section type SHT_RELA. -/
def SHT_RELA : Nat := 4

/-- ELF section type SHT_NOBITS. -/
def SHT_NOBITS : Nat := 8

/-- ELF section type SHT_REL. -/
def SHT_REL : Nat := 9

/-- ELF section flag SHF_ALLOC. -/
def SHF_ALLOC : Nat := 2

/-- ELF section flag SHF_EXECINSTR. -/
def SHF_EXECINSTR : Nat := 4

/-- ELF section flag SHF_MERGE. -/
def SHF_MERGE : Nat := 16

/-- ELF symbol type STT_NOTYPE. -/
def STT_NOTYPE : Nat := 0

/-- ELF symbol type STT_FUNC. -/
def STT_FUNC : Nat := 2

/-- ELF symbol binding STB_LOCAL. -/
def STB_LOCAL : Nat := 0

/-- ELF symbol binding STB_GLOBAL. -/
def STB_GLOBAL : Nat := 1

/-- ELF reserved section index bound SHN_LORESERVE = 0xff00. -/
def SHN_LORESERVE : Nat := 0xff00

/-- ELF object file type ET_REL. -/
def ET_REL : Nat := 1

/-- ELF e_ident class for 32-bit objects. -/
def ELFCLASS32 : Nat := 1

/-- ELF e_ident class for 64-bit objects. -/
def ELFCLASS64 : Nat := 2

/-- ELF e_ident little-endian data encoding. -/
def ELFDATA2LSB : Nat := 1

/-- ELF version EV_CURRENT. -/
def EV_CURRENT : Nat := 1

/-- ELF OS ABI: none / SYSV. -/
def ELFOSABI_NONE : Nat := 0

/-- Size of the e_ident array. -/
def EI_NIDENT : Nat := 16

/-- Index of the first padding byte of e_ident. -/
def EI_PAD : Nat := 9

/-! ### Little-endian byte encoding and the byte sink -/

/-- The `k` little-endian bytes of `n`, as the streamer's LE write helpers
produce them. -/
def leBytes : Nat → Nat → List Nat
  | 0, _ => []
  | k + 1, n => n % 256 :: leBytes k (n / 256)

/-- Recombine a little-endian byte list into a natural number. -/
def readNat : List Nat → Nat
  | [] => 0
  | b :: bs => b + 256 * readNat bs

/-- Read the `k`-byte little-endian field at byte offset `off` of a file. -/
def readLE (f : List Nat) (off k : Nat) : Nat :=
  readNat ((f.drop off).take k)

/-- Zero padding of length `n`, as written by `ELFStreamer::writeZeroPadding`. -/
def zeroPad (n : Nat) : List Nat :=
  List.replicate n 0

theorem leBytes_length (k n : Nat) : (leBytes k n).length = k := by
  induction k generalizing n with
  | zero => rfl
  | succ k ih => simp [leBytes, ih]

theorem readNat_leBytes (k n : Nat) : readNat (leBytes k n) = n % 256 ^ k := by
  induction k generalizing n with
  | zero => simp [leBytes, readNat, Nat.mod_one]
  | succ k ih =>
    have h : n % (256 * 256 ^ k) = n % 256 + 256 * (n / 256 % 256 ^ k) := Nat.mod_mul
    simp [leBytes, readNat, ih, pow_succ]
    rw [mul_comm (256 ^ k) 256, h]

/-- `alignFileOffset` from the source: pad the sink with zero bytes until the
current offset is a multiple of `align` (a power of two), returning the new
file contents and the new offset.  The source computes the remainder with the
bit mask `OffsetInFile & (Align - 1)`. -/
def alignFileOffset (f : List Nat) (align : Nat) : List Nat × Nat :=
  let offsetInFile := f.length
  let m := offsetInFile &&& (align - 1)
  if m = 0 then (f, offsetInFile)
  else
    let alignDiff := align - m
    (f ++ zeroPad alignDiff, offsetInFile + alignDiff)

theorem alignFileOffset_spec (f : List Nat) (k : Nat) :
    let r := alignFileOffset f (2 ^ k)
    r.2 % 2 ^ k = 0 ∧ r.1 = f ++ zeroPad (r.2 - f.length) ∧
      f.length ≤ r.2 ∧ r.1.length = r.2 := by
  have hmask : f.length &&& (2 ^ k - 1) = f.length % 2 ^ k :=
    Nat.and_pow_two_sub_one_eq_mod f.length k
  have hpos : 0 < 2 ^ k := Nat.pos_pow_of_pos k (by norm_num)
  by_cases h : f.length % 2 ^ k = 0
  · simp [alignFileOffset, hmask, h, zeroPad]
  · have hlt : f.length % 2 ^ k < 2 ^ k := Nat.mod_lt _ hpos
    have hle : f.length % 2 ^ k ≤ f.length := Nat.mod_le _ _
    have hmod : (f.length + (2 ^ k - f.length % 2 ^ k)) % 2 ^ k = 0 := by
      have h2 : f.length + (2 ^ k - f.length % 2 ^ k)
          = (f.length - f.length % 2 ^ k) + 2 ^ k := by omega
      have h3 : f.length - f.length % 2 ^ k = 2 ^ k * (f.length / 2 ^ k) := by
        have h4 := Nat.mod_add_div f.length (2 ^ k)
        omega
      rw [h2, h3]
      simp [Nat.add_mul_mod_self_left, Nat.mul_mod_right]
    refine ⟨?_, ?_, ?_, ?_⟩ <;>
      simp [alignFileOffset, hmask, h, zeroPad, hmod] <;> omega

/-! ### Sections

Every section kind shares the header bookkeeping fields of the base
`ELFSection` class: name, sh_type, sh_flags, sh_addralign, sh_entsize, and
the mutable number, name-string index, file offset, size, sh_link and
sh_info.  The `id` field stands for the section object's identity
(C++ pointer equality). -/

structure BaseSection where
  id : Nat
  name : String
  shType : Nat
  shFlags : Nat
  shAddralign : Nat
  shEntsize : Nat
  number : Nat := 0
  nameStrIndex : Nat := 0
  fileOffset : Nat := 0
  size : Nat := 0
  linkNum : Nat := 0
  infoNum : Nat := 0
deriving Repr, DecidableEq

/-- A string table section (`ELFStringTableSection`): the base fields plus
the insertion-ordered list of distinct added strings. -/
structure ELFStringTableSection where
  base : BaseSection
  strings : List String := []
deriving Repr, DecidableEq

/-- UTF-8-agnostic byte view of an ASCII section or symbol name. -/
def strBytes (s : String) : List Nat :=
  s.toList.map Char.toNat

/-- Modelled from the spec: `StringTable::add` is an idempotent insert; the
empty string needs no slot because the blob's leading NUL already encodes
it at offset 0 (spec section 4.2). -/
def strTabAdd (t : ELFStringTableSection) (s : String) : ELFStringTableSection :=
  if s = "" ∨ s ∈ t.strings then t else { t with strings := t.strings ++ [s] }

/-- Modelled from the spec: the laid-out string table blob is a leading NUL
byte followed by each unique string and a terminating NUL, in insertion
order (spec section 4.2). -/
def layoutBytes (strings : List String) : List Nat :=
  0 :: strings.foldr (fun s acc => strBytes s ++ 0 :: acc) []

/-- Modelled from the spec: `StringTable::indexOf` returns the byte offset of
a string inside the laid-out blob; the empty string maps to offset 0. -/
def getIndex (strings : List String) (s : String) : Nat :=
  if s = "" then 0 else go 1 strings
where
  go : Nat → List String → Nat
    | _, [] => 0
    | pos, t :: ts => if t = s then pos else go (pos + (strBytes t).length + 1) ts

/-- A symbol table entry.  `sectionId` is the id of the section the symbol is
defined against; `nameIndex` and `shndx` are resolved by `updateIndices`. -/
structure SymEntry where
  name : String
  stType : Nat
  binding : Nat
  sectionId : Nat
  value : Nat
  size : Nat
  nameIndex : Nat := 0
  shndx : Nat := 0
deriving Repr, DecidableEq

/-- A symbol table section (`ELFSymbolTableSection`).  Modelled from the
spec: the ordered symbol list is partitioned locals-then-globals, and
`getNumLocals` is the length of the local part (spec section 3). -/
structure ELFSymbolTableSection where
  base : BaseSection
  locals : List SymEntry := []
  globals : List SymEntry := []
deriving Repr, DecidableEq

/-- Modelled from the spec: `createDefinedSym` appends a LOCAL symbol to the
local part and any other symbol to the global part, keeping all locals
before all globals. -/
def createDefinedSym (t : ELFSymbolTableSection) (name : String)
    (stType binding sectionId value size : Nat) : ELFSymbolTableSection :=
  let sym : SymEntry :=
    { name := name, stType := stType, binding := binding,
      sectionId := sectionId, value := value, size := size }
  if binding = STB_LOCAL then { t with locals := t.locals ++ [sym] }
  else { t with globals := t.globals ++ [sym] }

/-- The ordered symbol list: locals then globals. -/
def symbols (t : ELFSymbolTableSection) : List SymEntry :=
  t.locals ++ t.globals

/-- A relocation entry / assembler fixup: offset in the section (adjusted by
the function's start offset when stored), relocation type, target symbol
name, and addend. -/
structure RelocEntry where
  offset : Nat
  relType : Nat
  symName : String
  addend : Int
deriving Repr, DecidableEq

/-- A relocation section (`ELFRelocationSection`): base fields, the id of
the related user section, and the accumulated fixups. -/
structure ELFRelocationSection where
  base : BaseSection
  relatedId : Nat
  fixups : List RelocEntry := []
deriving Repr, DecidableEq

/-- Modelled from the spec: `addRelocations(BaseOff, Fixups)` adjusts each
fixup's offset by the function's offset within the section and appends it
(spec sections 3 and 4.6 step 5). -/
def addRelocations (r : ELFRelocationSection) (baseOff : Nat)
    (fixups : List RelocEntry) : ELFRelocationSection :=
  { r with fixups := r.fixups ++ fixups.map (fun e => { e with offset := baseOff + e.offset }) }

/-! ### The object writer's state -/

/-- An assembler handle, as consumed by `writeFunctionCode`: the emitted
machine-code byte buffer and the fixup list. -/
structure Assembler where
  buffer : List Nat
  fixups : List RelocEntry
deriving Repr, DecidableEq

/-- The primitive value types relevant to the writer's constant pools. -/
inductive IceType
  | i8
  | i16
  | i32
  | i64
  | f32
  | f64
deriving Repr, DecidableEq

/-- The width in bytes of a primitive type (`typeWidthInBytes`). -/
def typeWidthInBytes : IceType → Nat
  | .i8 => 1
  | .i16 => 2
  | .i32 => 4
  | .i64 => 8
  | .f32 => 4
  | .f64 => 8

/-- The natural alignment in bytes of a primitive type (`typeAlignInBytes`). -/
def typeAlignInBytes : IceType → Nat
  | .i8 => 1
  | .i16 => 2
  | .i32 => 4
  | .i64 => 8
  | .f32 => 4
  | .f64 => 8

/-- A pooled constant: its pool label (as `emitPoolLabel` would print it) and
the little-endian bit pattern of its primitive value. -/
structure PoolConstant where
  label : String
  value : Nat
deriving Repr, DecidableEq

/-- The whole `ELFObjectWriter` state: target configuration, the byte sink,
the four fixed bookkeeping sections, and the six user-section buckets.
`nextId` provides fresh section identities. -/
structure ObjectWriterState where
  isELF64 : Bool
  machine : Nat
  eflags : Nat
  str : List Nat
  nullSection : BaseSection
  shStrTab : ELFStringTableSection
  symTab : ELFSymbolTableSection
  strTab : ELFStringTableSection
  textSections : List BaseSection
  relTextSections : List ELFRelocationSection
  dataSections : List BaseSection
  relDataSections : List ELFRelocationSection
  roDataSections : List BaseSection
  relRoDataSections : List ELFRelocationSection
  nextId : Nat
  sectionNumbersAssigned : Bool
deriving Repr, DecidableEq

/-- The `ELFObjectWriter` constructor: creates the null section, `.shstrtab`
(with its own name added), `.symtab` (with alignment 8/4 and entry size
24/16 and the initial all-zero NULL symbol with binding LOCAL), and
`.strtab`.  `createSection` also registers each created section's name in
`.shstrtab`. -/
def mkObjectWriter (isELF64 : Bool) (machine eflags : Nat) : ObjectWriterState :=
  let nullSection : BaseSection :=
    { id := 0, name := "", shType := SHT_NULL, shFlags := 0, shAddralign := 0, shEntsize := 0 }
  let shStrTab : ELFStringTableSection :=
    { base := { id := 1, name := ".shstrtab", shType := SHT_STRTAB, shFlags := 0,
                shAddralign := 1, shEntsize := 0 } }
  let shStrTab := strTabAdd shStrTab ".shstrtab"
  let symTabAlign := if isELF64 then 8 else 4
  let symTabEntSize := if isELF64 then 24 else 16
  let symTab : ELFSymbolTableSection :=
    { base := { id := 2, name := ".symtab", shType := SHT_SYMTAB, shFlags := 0,
                shAddralign := symTabAlign, shEntsize := symTabEntSize } }
  let shStrTab := strTabAdd shStrTab ".symtab"
  let symTab := createDefinedSym symTab "" STT_NOTYPE STB_LOCAL nullSection.id 0 0
  let strTab : ELFStringTableSection :=
    { base := { id := 3, name := ".strtab", shType := SHT_STRTAB, shFlags := 0,
                shAddralign := 1, shEntsize := 0 } }
  let shStrTab := strTabAdd shStrTab ".strtab"
  { isELF64 := isELF64, machine := machine, eflags := eflags, str := [],
    nullSection := nullSection, shStrTab := shStrTab, symTab := symTab, strTab := strTab,
    textSections := [], relTextSections := [], dataSections := [], relDataSections := [],
    roDataSections := [], relRoDataSections := [], nextId := 4,
    sectionNumbersAssigned := false }

/-! ### The ELF header writer -/

/-- The four magic bytes 0x7f 'E' 'L' 'F'. -/
def elfMagic : List Nat := [0x7f, 0x45, 0x4c, 0x46]

/-- The class-independent e_ident block: magic, class, data encoding,
version, OS ABI, ABI version, and zero padding up to EI_NIDENT bytes. -/
def elfIdent (isELF64 : Bool) : List Nat :=
  elfMagic ++ [if isELF64 then ELFCLASS64 else ELFCLASS32,
    ELFDATA2LSB, EV_CURRENT, ELFOSABI_NONE, 0] ++ zeroPad (EI_NIDENT - EI_PAD)

/-- Width in bytes of an Addr or Off field for the given ELF class. -/
def addrSize (isELF64 : Bool) : Nat := if isELF64 then 8 else 4

/-- sizeof(Elf64_Ehdr) = 64, sizeof(Elf32_Ehdr) = 52. -/
def ehdrSize (isELF64 : Bool) : Nat := if isELF64 then 64 else 52

/-- sizeof(Elf64_Shdr) = 64, sizeof(Elf32_Shdr) = 40. -/
def shdrSize (isELF64 : Bool) : Nat := if isELF64 then 64 else 40

/-- `writeELFHeaderInternal`: the bytes of the full ELF file header.  The
source asserts `NumSections < SHN_LORESERVE` and
`SectHeaderStrIndex < SHN_LORESERVE` (the >= 64K-section escape hatch is
unimplemented); the asserts are modelled as a guard, so a violating call
fails instead of emitting a header. -/
def writeELFHeaderInternal (isELF64 : Bool) (machine eflags : Nat)
    (sectionHeaderOffset sectHeaderStrIndex numSections : Nat) : Option (List Nat) :=
  if numSections < SHN_LORESERVE ∧ sectHeaderStrIndex < SHN_LORESERVE then
    some (elfIdent isELF64 ++
      (leBytes 2 ET_REL ++
      (leBytes 2 machine ++
      (leBytes 4 1 ++
      (leBytes (addrSize isELF64) 0 ++
      (leBytes (addrSize isELF64) 0 ++
      (leBytes (addrSize isELF64) sectionHeaderOffset ++
      (leBytes 4 eflags ++
      (leBytes 2 (ehdrSize isELF64) ++
      (leBytes 2 0 ++
      (leBytes 2 0 ++
      (leBytes 2 (shdrSize isELF64) ++
      (leBytes 2 numSections ++
      leBytes 2 sectHeaderStrIndex)))))))))))))
  else none

/-- `writeInitialELFHeader`: writes a dummy ELF header (all three patchable
fields zero) at the start of the sink. -/
def writeInitialELFHeader (st : ObjectWriterState) : Option ObjectWriterState :=
  match writeELFHeaderInternal st.isELF64 st.machine st.eflags 0 0 0 with
  | some hdr => some { st with str := st.str ++ hdr }
  | none => none

/-! ### writeFunctionCode -/

/-- Update the first relocation section whose name matches, appending the
offset-adjusted fixups to it (the effect of the source's `find_if` +
`addRelocations`). -/
def addRelocationsTo : List ELFRelocationSection → String → Nat → List RelocEntry →
    List ELFRelocationSection
  | [], _, _, _ => []
  | r :: rs, nm, off, fx =>
    if r.base.name = nm then addRelocations r off fx :: rs
    else r :: addRelocationsTo rs nm off fx

/-- `writeFunctionCode(FuncName, IsInternal, Asm)`: creates the single
coalesced `.text` section on first use (SHT_PROGBITS, ALLOC|EXECINSTR,
align 32, file offset aligned), appends the assembler buffer, records a
symbol (NOTYPE/LOCAL when internal, FUNC/GLOBAL otherwise, size 0, value =
the function's offset in `.text`), and, when the assembler carries fixups,
looks up or creates `.rela.text` / `.rel.text` and appends the
offset-adjusted fixups to it. -/
def writeFunctionCode (funcName : String) (isInternal : Bool) (asm : Assembler)
    (st : ObjectWriterState) : ObjectWriterState :=
  let sectionName := ".text"
  let (st1, sec, rest) :=
    match st.textSections with
    | [] =>
      let s0 : BaseSection :=
        { id := st.nextId, name := sectionName, shType := SHT_PROGBITS,
          shFlags := SHF_ALLOC ||| SHF_EXECINSTR, shAddralign := 32, shEntsize := 0 }
      let stc := { st with shStrTab := strTabAdd st.shStrTab sectionName,
                           nextId := st.nextId + 1 }
      let fo := alignFileOffset stc.str s0.shAddralign
      let s0 := { s0 with fileOffset := fo.2 }
      ({ stc with str := fo.1 }, s0, ([] : List BaseSection))
    | t :: ts => (st, t, ts)
  let offsetInSection := sec.size
  let symbolSize := 0
  let sec2 := { sec with size := sec.size + asm.buffer.length }
  let st2 := { st1 with str := st1.str ++ asm.buffer, textSections := sec2 :: rest }
  let symbolType := if isInternal then STT_NOTYPE else STT_FUNC
  let symbolBinding := if isInternal then STB_LOCAL else STB_GLOBAL
  let st3 := { st2 with
    symTab := createDefinedSym st2.symTab funcName symbolType symbolBinding
      sec2.id offsetInSection symbolSize,
    strTab := strTabAdd st2.strTab funcName }
  if asm.fixups.isEmpty then st3
  else
    let relSectionName := (if st3.isELF64 then ".rela" else ".rel") ++ sectionName
    let st4 :=
      if st3.relTextSections.any (fun s => s.base.name = relSectionName) then st3
      else
        let shType := if st3.isELF64 then SHT_RELA else SHT_REL
        let shAlign := if st3.isELF64 then 8 else 4
        let shEntSize := if st3.isELF64 then 24 else 8
        let relSection : ELFRelocationSection :=
          { base := { id := st3.nextId, name := relSectionName, shType := shType,
                      shFlags := 0, shAddralign := shAlign, shEntsize := shEntSize },
            relatedId := sec2.id }
        { st3 with shStrTab := strTabAdd st3.shStrTab relSectionName,
                   nextId := st3.nextId + 1,
                   relTextSections := st3.relTextSections ++ [relSection] }
    { st4 with relTextSections :=
        addRelocationsTo st4.relTextSections relSectionName offsetInSection asm.fixups }

/-- `writeDataInitializer`: hits `llvm_unreachable("TODO")` — data
initializers are unimplemented, so the call always fails and performs no
write. -/
def writeDataInitializer (st : ObjectWriterState) (varName : String)
    (data : List Nat) : Except String ObjectWriterState :=
  Except.error "TODO"

/-! ### writeConstantPool -/

/-- The per-element write amount of `writeConstantPool`: the element size
clamped to the 20-byte stack buffer `char Buf[20]`. -/
def poolWriteAmt (ty : IceType) : Nat :=
  min (typeWidthInBytes ty) 20

/-- The per-constant loop of `writeConstantPool`: create a LOCAL NOTYPE
symbol at the running offset, register the label in `.strtab`, write the
constant's raw little-endian bytes, and advance by the write amount. -/
def poolLoop (writeAmt secId : Nat) :
    List PoolConstant → Nat → ObjectWriterState → ObjectWriterState × Nat
  | [], ofs, st => (st, ofs)
  | c :: cs, ofs, st =>
    let st := { st with
      symTab := createDefinedSym st.symTab c.label STT_NOTYPE STB_LOCAL secId ofs 0,
      strTab := strTabAdd st.strTab c.label,
      str := st.str ++ leBytes writeAmt c.value }
    poolLoop writeAmt secId cs (ofs + writeAmt) st

/-- `writeConstantPool<T>(Ty)`: returns unchanged on an empty pool;
otherwise creates `.rodata.cst<N>` (SHT_PROGBITS, ALLOC|MERGE, align =
natural alignment, entsize = write amount), aligns the file offset, runs the
per-constant loop, and finalizes the section's size to the total written. -/
def writeConstantPool (ty : IceType) (pool : List PoolConstant)
    (st : ObjectWriterState) : ObjectWriterState :=
  if pool.isEmpty then st
  else
    let align := typeAlignInBytes ty
    let writeAmt := poolWriteAmt ty
    let shFlags := SHF_ALLOC ||| SHF_MERGE
    let secName := ".rodata.cst" ++ toString writeAmt
    let sec : BaseSection :=
      { id := st.nextId, name := secName, shType := SHT_PROGBITS, shFlags := shFlags,
        shAddralign := align, shEntsize := writeAmt }
    let st := { st with shStrTab := strTabAdd st.shStrTab secName, nextId := st.nextId + 1 }
    let fo := alignFileOffset st.str align
    let sec := { sec with fileOffset := fo.2 }
    let st := { st with str := fo.1 }
    let r := poolLoop writeAmt sec.id pool 0 st
    { r.1 with roDataSections := r.1.roDataSections ++ [{ sec with size := r.2 }] }

/-! ### Section number assignment -/

/-- The view of a section as it sits in `AllSections`: the base fields plus,
for a relocation section, the id of its related user section. -/
structure SectionView where
  base : BaseSection
  relatedId : Option Nat := none
deriving Repr, DecidableEq

/-- View of a non-relocation section. -/
def viewOfUser (u : BaseSection) : SectionView := { base := u }

/-- View of a relocation section. -/
def viewOfRel (r : ELFRelocationSection) : SectionView :=
  { base := r.base, relatedId := some r.relatedId }

/-- `assignRelSectionNumInPairs`: walk the user sections of a bucket, give
each the next section number and its name-string index, and, whenever the
front of the relocation list relates to the current user section, give that
relocation section the immediately following number with `sh_info` set to
the user section's number and advance past it.  Returns the next free
number, the renumbered user and relocation lists, and the `AllSections`
slice contributed by this bucket (as views in push order). -/
def assignRelSectionNumInPairs (gi : String → Nat) :
    Nat → List BaseSection → List ELFRelocationSection →
    Nat × List BaseSection × List ELFRelocationSection × List SectionView
  | cur, [], rels => (cur, [], rels, [])
  | cur, u :: us, rels =>
    let u2 := { u with number := cur, nameStrIndex := gi u.name }
    match rels with
    | r :: rs =>
      if r.relatedId = u.id then
        let r2 := { r with base :=
          { r.base with infoNum := u2.number, number := cur + 1, nameStrIndex := gi r.base.name } }
        let rec3 := assignRelSectionNumInPairs gi (cur + 2) us rs
        (rec3.1, u2 :: rec3.2.1, r2 :: rec3.2.2.1, viewOfUser u2 :: viewOfRel r2 :: rec3.2.2.2)
      else
        let rec3 := assignRelSectionNumInPairs gi (cur + 1) us (r :: rs)
        (rec3.1, u2 :: rec3.2.1, rec3.2.2.1, viewOfUser u2 :: rec3.2.2.2)
    | [] =>
      let rec3 := assignRelSectionNumInPairs gi (cur + 1) us []
      (rec3.1, u2 :: rec3.2.1, rec3.2.2.1, viewOfUser u2 :: rec3.2.2.2)

/-- `assignRelLinkNum`: set every relocation section's `sh_link` to the
symbol table's section number. -/
def assignRelLinkNum (symTabNumber : Nat) (rels : List ELFRelocationSection) :
    List ELFRelocationSection :=
  rels.map (fun r => { r with base := { r.base with linkNum := symTabNumber } })

/-- `assignSectionNumbersInfo`: number the null section 0, then the Text,
Data and RoData buckets (interleaving each bucket's relocation sections via
`assignRelSectionNumInPairs`), then `.shstrtab`, `.symtab` and `.strtab`;
set `.symtab`'s `sh_link` to `.strtab`'s number and its `sh_info` to the
local-symbol count, and every relocation section's `sh_link` to `.symtab`'s
number.  Returns the updated state and the `AllSections` list (as the
views pushed during assignment). -/
def assignSectionNumbersInfo (st : ObjectWriterState) :
    ObjectWriterState × List SectionView :=
  let gi := getIndex st.shStrTab.strings
  let null2 := { st.nullSection with number := 0 }
  let r1 := assignRelSectionNumInPairs gi 1 st.textSections st.relTextSections
  let r2 := assignRelSectionNumInPairs gi r1.1 st.dataSections st.relDataSections
  let r3 := assignRelSectionNumInPairs gi r2.1 st.roDataSections st.relRoDataSections
  let c3 := r3.1
  let shStr2 := { st.shStrTab with base :=
    { st.shStrTab.base with number := c3, nameStrIndex := gi st.shStrTab.base.name } }
  let symA := { st.symTab with base :=
    { st.symTab.base with number := c3 + 1, nameStrIndex := gi st.symTab.base.name } }
  let strB := { st.strTab with base :=
    { st.strTab.base with number := c3 + 2, nameStrIndex := gi st.strTab.base.name } }
  let symB := { symA with base :=
    { symA.base with linkNum := strB.base.number, infoNum := symA.locals.length } }
  let rts2 := assignRelLinkNum symB.base.number r1.2.2.1
  let rds2 := assignRelLinkNum symB.base.number r2.2.2.1
  let rros2 := assignRelLinkNum symB.base.number r3.2.2.1
  let st2 :=
    { st with
      nullSection := null2, shStrTab := shStr2, symTab := symB,
      strTab := strB, textSections := r1.2.1, relTextSections := rts2,
      dataSections := r2.2.1, relDataSections := rds2, roDataSections := r3.2.1,
      relRoDataSections := rros2, sectionNumbersAssigned := true }
  (st2, viewOfUser null2 :: (r1.2.2.2 ++ r2.2.2.2 ++ r3.2.2.2 ++
    [viewOfUser shStr2.base, viewOfUser symB.base, viewOfUser strB.base]))

/-! ### Emission of symbol tables, relocation sections and headers -/

/-- Look up the current section number of the section with the given id
(the dereference of a symbol's section pointer at emission time). -/
def sectionNumberOf (st : ObjectWriterState) (id : Nat) : Nat :=
  let all : List SectionView :=
    viewOfUser st.nullSection :: st.textSections.map viewOfUser ++
      st.dataSections.map viewOfUser ++ st.roDataSections.map viewOfUser ++
      st.relTextSections.map viewOfRel ++ st.relDataSections.map viewOfRel ++
      st.relRoDataSections.map viewOfRel ++
      [viewOfUser st.shStrTab.base, viewOfUser st.symTab.base, viewOfUser st.strTab.base]
  match all.find? (fun v => v.base.id = id) with
  | some v => v.base.number
  | none => 0

/-- The current (possibly updated) view of the section with the given id —
the dereference of an `AllSections` pointer at header-write time. -/
def refreshView (st : ObjectWriterState) (v : SectionView) : SectionView :=
  let all : List SectionView :=
    viewOfUser st.nullSection :: st.textSections.map viewOfUser ++
      st.dataSections.map viewOfUser ++ st.roDataSections.map viewOfUser ++
      st.relTextSections.map viewOfRel ++ st.relDataSections.map viewOfRel ++
      st.relRoDataSections.map viewOfRel ++
      [viewOfUser st.shStrTab.base, viewOfUser st.symTab.base, viewOfUser st.strTab.base]
  match all.find? (fun w => w.base.id = v.base.id) with
  | some w => w
  | none => v

/-- Modelled from the spec: `updateIndices` resolves each symbol's
`st_name` from `.strtab` and its `st_shndx` from its section's assigned
number (spec section 4.8 step 4). -/
def updateIndices (t : ELFSymbolTableSection) (strTab : ELFStringTableSection)
    (numberOf : Nat → Nat) : ELFSymbolTableSection :=
  let upd := fun (s : SymEntry) =>
    { s with nameIndex := getIndex strTab.strings s.name, shndx := numberOf s.sectionId }
  { t with locals := t.locals.map upd, globals := t.globals.map upd }

/-- Modelled from the spec: one on-disk symbol record — 24 bytes for ELF64
(name, info, other, shndx, value, size) or 16 bytes for ELF32 (name, value,
size, info, other, shndx); `st_info = (binding << 4) | (type & 0xf)`
(spec section 4.8 step 5). -/
def symRecord (isELF64 : Bool) (s : SymEntry) : List Nat :=
  let stInfo := s.binding * 16 + s.stType % 16
  if isELF64 then
    leBytes 4 s.nameIndex ++ leBytes 1 stInfo ++ leBytes 1 0 ++ leBytes 2 s.shndx ++
      leBytes 8 s.value ++ leBytes 8 s.size
  else
    leBytes 4 s.nameIndex ++ leBytes 4 s.value ++ leBytes 4 s.size ++
      leBytes 1 stInfo ++ leBytes 1 0 ++ leBytes 2 s.shndx

/-- The symbol table's on-disk bytes: the records of locals then globals. -/
def symTabData (isELF64 : Bool) (t : ELFSymbolTableSection) : List Nat :=
  (symbols t).foldr (fun s acc => symRecord isELF64 s ++ acc) []

/-- Index of a symbol in the ordered symbol list, by name (0 if absent). -/
def symbolIndexOf (t : ELFSymbolTableSection) (name : String) : Nat :=
  match (symbols t).findIdx? (fun s => s.name = name) with
  | some i => i
  | none => 0

/-- Modelled from the spec: one on-disk relocation record — for ELF64 a
RELA triple (r_offset, r_info = (sym << 32) | type, r_addend as two's
complement), for ELF32 a REL pair (r_offset, r_info = (sym << 8) | type)
(spec section 4.8 step 7). -/
def relRecord (isELF64 : Bool) (symIdx : Nat) (e : RelocEntry) : List Nat :=
  if isELF64 then
    leBytes 8 e.offset ++ leBytes 8 (symIdx * 2 ^ 32 + e.relType % 2 ^ 32) ++
      leBytes 8 (e.addend.emod (2 ^ 64)).toNat
  else
    leBytes 4 e.offset ++ leBytes 4 (symIdx * 2 ^ 8 + e.relType % 2 ^ 8)

/-- A relocation section's on-disk bytes. -/
def relSectionData (isELF64 : Bool) (symTab : ELFSymbolTableSection)
    (r : ELFRelocationSection) : List Nat :=
  r.fixups.foldr (fun e acc => relRecord isELF64 (symbolIndexOf symTab e.symName) e ++ acc) []

/-- `writeRelocationSections`: for each relocation section of a bucket, in
order, align the file offset to the section's alignment, record the offset,
set the size to the serialized size, and write the records. -/
def writeRelocationSections (isELF64 : Bool) (symTab : ELFSymbolTableSection) :
    List ELFRelocationSection → List Nat → List ELFRelocationSection × List Nat
  | [], f => ([], f)
  | r :: rs, f =>
    let fo := alignFileOffset f r.base.shAddralign
    let bytes := relSectionData isELF64 symTab r
    let r2 := { r with base := { r.base with fileOffset := fo.2, size := bytes.length } }
    let rec2 := writeRelocationSections isELF64 symTab rs (fo.1 ++ bytes)
    (r2 :: rec2.1, rec2.2)

/-- `writeAllRelocationSections`: the Text, Data and RoData relocation
buckets, in that order. -/
def writeAllRelocationSections (st : ObjectWriterState) : ObjectWriterState :=
  let a := writeRelocationSections st.isELF64 st.symTab st.relTextSections st.str
  let b := writeRelocationSections st.isELF64 st.symTab st.relDataSections a.2
  let c := writeRelocationSections st.isELF64 st.symTab st.relRoDataSections b.2
  { st with relTextSections := a.1, relDataSections := b.1,
            relRoDataSections := c.1, str := c.2 }

/-- Modelled from the spec: one on-disk section header — 64 bytes for ELF64
or 40 bytes for ELF32, fields sh_name, sh_type, sh_flags, sh_addr (always
0 here), sh_offset, sh_size, sh_link, sh_info, sh_addralign, sh_entsize
(spec section 4.8 step 8). -/
def sectionHeaderBytes (isELF64 : Bool) (v : SectionView) : List Nat :=
  let w := addrSize isELF64
  leBytes 4 v.base.nameStrIndex ++ leBytes 4 v.base.shType ++ leBytes w v.base.shFlags ++
    leBytes w 0 ++ leBytes w v.base.fileOffset ++ leBytes w v.base.size ++
    leBytes 4 v.base.linkNum ++ leBytes 4 v.base.infoNum ++
    leBytes w v.base.shAddralign ++ leBytes w v.base.shEntsize

/-! ### writeNonUserSections -/

/-- The result of finalization: the final writer state (whose `str` is the
finished file), the `AllSections` views, and the section-header table's
file offset. -/
structure FinalOutput where
  state : ObjectWriterState
  allSections : List SectionView
  shOffset : Nat
deriving Repr, DecidableEq

/-- The body of `writeNonUserSections` up to (and including) writing the
section-header table: returns the state, the `AllSections` views, and the
section-header table's file offset `ShOffset`. -/
def finalizeSections (st : ObjectWriterState) : ObjectWriterState × List SectionView × Nat :=
  let isELF64 := st.isELF64
  let shStrData := layoutBytes st.shStrTab.strings
  let fo1 := alignFileOffset st.str st.shStrTab.base.shAddralign
  let st := { st with
    shStrTab := { st.shStrTab with base :=
      { st.shStrTab.base with size := shStrData.length, fileOffset := fo1.2 } },
    str := fo1.1 ++ shStrData }
  let asn := assignSectionNumbersInfo st
  let st := asn.1
  let allSections := asn.2
  let strData := layoutBytes st.strTab.strings
  let st := { st with strTab := { st.strTab with base :=
    { st.strTab.base with size := strData.length } } }
  let st := { st with symTab := updateIndices st.symTab st.strTab (sectionNumberOf st) }
  let fo2 := alignFileOffset st.str st.symTab.base.shAddralign
  let symData := symTabData isELF64 st.symTab
  let st := { st with
    symTab := { st.symTab with base :=
      { st.symTab.base with fileOffset := fo2.2, size := symData.length } },
    str := fo2.1 ++ symData }
  let fo3 := alignFileOffset st.str st.strTab.base.shAddralign
  let st := { st with
    strTab := { st.strTab with base := { st.strTab.base with fileOffset := fo3.2 } },
    str := fo3.1 ++ strData }
  let st := writeAllRelocationSections st
  let shdrAlign := if isELF64 then 8 else 4
  let fo4 := alignFileOffset st.str shdrAlign
  let headers :=
    allSections.foldr (fun v acc => sectionHeaderBytes isELF64 (refreshView st v) ++ acc) []
  ({ st with str := fo4.1 ++ headers }, allSections, fo4.2)

/-- `writeNonUserSections`: lay out and write `.shstrtab`; assign section
numbers; lay out `.strtab`; resolve symbol indices; write `.symtab`,
`.strtab` and all relocation sections, each at an aligned offset; write the
section-header table at an aligned offset `ShOffset`; finally seek to
offset 0 and rewrite the ELF header with the true `e_shoff`, `e_shstrndx`
and `e_shnum`. -/
def writeNonUserSections (st : ObjectWriterState) : Option FinalOutput :=
  let p := finalizeSections st
  match writeELFHeaderInternal p.1.isELF64 p.1.machine p.1.eflags p.2.2
      p.1.shStrTab.base.number p.2.1.length with
  | some hdr => some ⟨{ p.1 with str := hdr ++ p.1.str.drop hdr.length }, p.2.1, p.2.2⟩
  | none => none

/-! ### Concrete writer instances used by witnesses -/

/-- Modelled from the spec: driver control-flow step 1 — construct the
`ObjectWriter`, which immediately writes the dummy ELF header to the sink
(spec section 2; the driver that performs the call is outside this
repository's sources). -/
def initObjectWriter (isELF64 : Bool) (machine eflags : Nat) : Option ObjectWriterState :=
  writeInitialELFHeader (mkObjectWriter isELF64 machine eflags)

/-- An x86-64 writer right after construction (empty module, nothing
emitted yet): ELF64, e_machine 62, e_flags 0. -/
def x8664Writer : ObjectWriterState :=
  (initObjectWriter true 62 0).getD (mkObjectWriter true 62 0)

/-! ### Claim theorems -/

/-- C9: `writeDataInitializer` always fails with the unimplemented-feature
diagnostic (`llvm_unreachable("TODO")`) and never succeeds for any input;
no state (and hence no sink data) is produced. -/
theorem c9_writeDataInitializer_always_fails :
    (∀ (st : ObjectWriterState) (varName : String) (data : List Nat),
      writeDataInitializer st varName data = Except.error "TODO") ∧
    (∀ (st : ObjectWriterState) (varName : String) (data : List Nat)
        (st2 : ObjectWriterState),
      writeDataInitializer st varName data ≠ Except.ok st2) := by
  exact ⟨fun _ _ _ => rfl, fun _ _ _ _ h => by simp [writeDataInitializer] at h⟩

/-- C10: `writeConstantPool` clamps the per-element write amount to
min(element size, 20) — the size of the stack buffer `char Buf[20]` — so
the write amount equals the full element width exactly when that width is
at most 20 bytes; for the supported pool types f32 and f64 the internal
assertions hold: the write amount equals the element size (4 and 8, the
sizes of the primitive types float and double) and is a multiple of the
type's alignment. -/
theorem c10_pool_write_amount_clamp :
    (∀ ty : IceType, poolWriteAmt ty = typeWidthInBytes ty ↔ typeWidthInBytes ty ≤ 20) ∧
    (poolWriteAmt .f32 = typeWidthInBytes .f32 ∧ poolWriteAmt .f32 = 4 ∧
      poolWriteAmt .f32 % typeAlignInBytes .f32 = 0) ∧
    (poolWriteAmt .f64 = typeWidthInBytes .f64 ∧ poolWriteAmt .f64 = 8 ∧
      poolWriteAmt .f64 % typeAlignInBytes .f64 = 0) := by
  refine ⟨fun ty => ?_, by decide, by decide⟩
  cases ty <;> simp [poolWriteAmt, typeWidthInBytes]

/-- C4: whenever the ELF header would be written with a section count of
SHN_LORESERVE (0xff00) or more, the writer fails instead of emitting the
header (the >= 64K-section escape hatch is unimplemented); for every
section count below SHN_LORESERVE — together with the section-name-table
index bound asserted by the same code — the header write succeeds. -/
theorem c4_shnum_below_loreserve (isELF64 : Bool)
    (machine eflags shoff strndx num : Nat) :
    (SHN_LORESERVE ≤ num →
      writeELFHeaderInternal isELF64 machine eflags shoff strndx num = none) ∧
    (num < SHN_LORESERVE → strndx < SHN_LORESERVE →
      (writeELFHeaderInternal isELF64 machine eflags shoff strndx num).isSome) := by
  constructor
  · intro h
    simp only [writeELFHeaderInternal, ite_eq_right_iff]
    intro hc
    omega
  · intro h1 h2
    simp [writeELFHeaderInternal, h1, h2]

/-- Witness for C4 at concrete inputs: 0xff00 sections fail, 4 sections
succeed. -/
theorem c4_shnum_below_loreserve_witness :
    writeELFHeaderInternal true 62 0 0 1 0xff00 = none ∧
    (writeELFHeaderInternal true 62 0 0 1 4).isSome :=
  ⟨(c4_shnum_below_loreserve true 62 0 0 1 0xff00).1 (by decide),
    (c4_shnum_below_loreserve true 62 0 0 1 4).2 (by decide) (by decide)⟩

theorem elfIdent_length (isELF64 : Bool) : (elfIdent isELF64).length = 16 := by
  cases isELF64 <;> rfl

theorem writeELFHeaderInternal_length (isELF64 : Bool) (machine eflags shoff strndx num : Nat)
    (hdr : List Nat)
    (h : writeELFHeaderInternal isELF64 machine eflags shoff strndx num = some hdr) :
    hdr.length = ehdrSize isELF64 := by
  rw [writeELFHeaderInternal] at h
  split at h
  · cases h
    cases isELF64 <;>
      simp [List.length_append, elfIdent_length, leBytes_length, addrSize, ehdrSize]
  · cases h

/-- C7: constructing the object writer (followed, per the spec's driver
control flow, by the immediate initial header write modelled in
`initObjectWriter`) writes a dummy ELF header to the sink and creates the
four fixed bookkeeping sections — the null section, `.shstrtab`, `.symtab`
and `.strtab` — with the symbol table holding exactly the all-zero NULL
symbol with binding LOCAL. -/
theorem c7_constructor_initial_state (isELF64 : Bool) (machine eflags : Nat) :
    ∃ st hdr, initObjectWriter isELF64 machine eflags = some st ∧
      writeELFHeaderInternal isELF64 machine eflags 0 0 0 = some hdr ∧
      st.str = hdr ∧ hdr.length = ehdrSize isELF64 ∧
      st.nullSection.name = "" ∧ st.nullSection.shType = SHT_NULL ∧
      st.shStrTab.base.name = ".shstrtab" ∧ st.shStrTab.base.shType = SHT_STRTAB ∧
      st.symTab.base.name = ".symtab" ∧ st.symTab.base.shType = SHT_SYMTAB ∧
      st.strTab.base.name = ".strtab" ∧ st.strTab.base.shType = SHT_STRTAB ∧
      symbols st.symTab =
        [{ name := "", stType := STT_NOTYPE, binding := STB_LOCAL,
           sectionId := st.nullSection.id, value := 0, size := 0 }] ∧
      STB_LOCAL = 0 ∧ STT_NOTYPE = 0 := by
  have hguard : (0 < SHN_LORESERVE ∧ 0 < SHN_LORESERVE) := by decide
  have hhdr : ∃ hdr, writeELFHeaderInternal isELF64 machine eflags 0 0 0 = some hdr := by
    rw [writeELFHeaderInternal, if_pos hguard]
    exact ⟨_, rfl⟩
  obtain ⟨hdr, hhdr⟩ := hhdr
  refine ⟨{ mkObjectWriter isELF64 machine eflags with
              str := (mkObjectWriter isELF64 machine eflags).str ++ hdr }, hdr,
    ?_, hhdr, rfl, writeELFHeaderInternal_length _ _ _ _ _ _ _ hhdr,
    rfl, rfl, rfl, rfl, rfl, rfl, rfl, rfl, rfl, rfl, rfl⟩
  rw [initObjectWriter, writeInitialELFHeader]
  rw [show (mkObjectWriter isELF64 machine eflags).isELF64 = isELF64 from rfl,
    show (mkObjectWriter isELF64 machine eflags).machine = machine from rfl,
    show (mkObjectWriter isELF64 machine eflags).eflags = eflags from rfl, hhdr]
  rfl

/-! ### Characterization of the constant-pool loop -/

/-- The symbols the constant-pool loop creates: one LOCAL NOTYPE zero-size
symbol per pooled constant, at offsets `ofs, ofs + writeAmt, ...`. -/
def poolSymbols (secId writeAmt : Nat) : List PoolConstant → Nat → List SymEntry
  | [], _ => []
  | c :: cs, ofs =>
    { name := c.label, stType := STT_NOTYPE, binding := STB_LOCAL,
      sectionId := secId, value := ofs, size := 0 } ::
      poolSymbols secId writeAmt cs (ofs + writeAmt)

/-- The bytes the constant-pool loop writes: each constant's raw
little-endian bytes, `writeAmt` per element, in pool order. -/
def poolBytes (writeAmt : Nat) : List PoolConstant → List Nat
  | [] => []
  | c :: cs => leBytes writeAmt c.value ++ poolBytes writeAmt cs

/-- The `.strtab` additions the constant-pool loop performs. -/
def strTabAddLabels (t : ELFStringTableSection) : List PoolConstant → ELFStringTableSection
  | [] => t
  | c :: cs => strTabAddLabels (strTabAdd t c.label) cs

theorem poolLoop_spec (writeAmt secId : Nat) (pool : List PoolConstant) (ofs : Nat)
    (st : ObjectWriterState) :
    poolLoop writeAmt secId pool ofs st =
      ({ st with
          symTab := { st.symTab with
            locals := st.symTab.locals ++ poolSymbols secId writeAmt pool ofs },
          strTab := strTabAddLabels st.strTab pool,
          str := st.str ++ poolBytes writeAmt pool },
        ofs + writeAmt * pool.length) := by
  induction pool generalizing ofs st with
  | nil => simp [poolLoop, poolSymbols, poolBytes, strTabAddLabels]
  | cons c cs ih =>
    rw [poolLoop, ih]
    simp only [poolSymbols, poolBytes, strTabAddLabels, createDefinedSym, STB_LOCAL,
      List.length_cons, if_pos rfl]
    refine congrArg₂ Prod.mk ?_ (by ring)
    simp [List.append_assoc]

theorem poolSymbols_get (secId w : Nat) (pool : List PoolConstant) (ofs k : Nat) :
    (poolSymbols secId w pool ofs)[k]? = (pool[k]?).map (fun c =>
      { name := c.label, stType := STT_NOTYPE, binding := STB_LOCAL,
        sectionId := secId, value := ofs + k * w, size := 0 }) := by
  induction pool generalizing ofs k with
  | nil => simp [poolSymbols]
  | cons c cs ih =>
    cases k with
    | zero => simp [poolSymbols]
    | succ k =>
      simp only [poolSymbols, List.getElem?_cons_succ, ih]
      have h : ofs + w + k * w = ofs + (k + 1) * w := by ring
      rw [h]

theorem poolSymbols_size_zero (secId w : Nat) (pool : List PoolConstant) (ofs : Nat) :
    ∀ sym ∈ poolSymbols secId w pool ofs, sym.size = 0 := by
  induction pool generalizing ofs with
  | nil => simp [poolSymbols]
  | cons c cs ih =>
    intro sym hmem
    rcases List.mem_cons.mp hmem with h | h
    · rw [h]
    · exact ih _ sym h

/-- C6: `writeConstantPool` returns without creating any section or symbol
on an empty pool; otherwise it creates exactly one section named
`.rodata.cst<N>` (N the element size) with flags SHF_ALLOC|SHF_MERGE,
alignment N and entsize N, adds one LOCAL NOTYPE symbol per pooled constant
at successive offsets 0, N, 2N, ..., writes each constant's raw
little-endian bytes after aligning the file offset, and sets the section's
size to N times the number of constants. -/
theorem c6_writeConstantPool_section_and_symbols (ty : IceType)
    (pool : List PoolConstant) (st : ObjectWriterState) :
    (writeConstantPool ty [] st = st) ∧
    (pool ≠ [] →
      ∃ sec : BaseSection,
        (writeConstantPool ty pool st).roDataSections = st.roDataSections ++ [sec] ∧
        sec.name = ".rodata.cst" ++ toString (typeWidthInBytes ty) ∧
        sec.shType = SHT_PROGBITS ∧
        sec.shFlags = SHF_ALLOC ||| SHF_MERGE ∧
        sec.shAddralign = typeWidthInBytes ty ∧
        sec.shEntsize = typeWidthInBytes ty ∧
        sec.size = typeWidthInBytes ty * pool.length ∧
        (writeConstantPool ty pool st).symTab.globals = st.symTab.globals ∧
        (writeConstantPool ty pool st).symTab.locals =
          st.symTab.locals ++ poolSymbols sec.id (typeWidthInBytes ty) pool 0 ∧
        (∀ k c, pool[k]? = some c →
          (poolSymbols sec.id (typeWidthInBytes ty) pool 0)[k]? = some
            ({ name := c.label, stType := STT_NOTYPE, binding := STB_LOCAL,
               sectionId := sec.id, value := k * typeWidthInBytes ty,
               size := 0 } : SymEntry)) ∧
        (writeConstantPool ty pool st).str =
          (alignFileOffset st.str (typeAlignInBytes ty)).1 ++
            poolBytes (typeWidthInBytes ty) pool) := by
  have hwa : poolWriteAmt ty = typeWidthInBytes ty := by
    cases ty <;> simp [poolWriteAmt, typeWidthInBytes]
  have hal : typeAlignInBytes ty = typeWidthInBytes ty := by
    cases ty <;> rfl
  constructor
  · rfl
  · intro hne
    rw [writeConstantPool, if_neg (by simp [hne] : ¬(pool.isEmpty = true))]
    simp only [poolLoop_spec]
    rw [hwa, hal]
    refine ⟨_, rfl, rfl, rfl, rfl, rfl, rfl, ?_, trivial, rfl, ?_, rfl⟩
    · simp
    · intro k c hk
      rw [poolSymbols_get, hk]
      simp

/-- The spec's Scenario D pool: the two f32 constants 1.0 and 2.0, as bit
patterns. -/
def scenarioDPool : List PoolConstant :=
  [{ label := "L$f32$0", value := 0x3f800000 }, { label := "L$f32$1", value := 0x40000000 }]

/-- Witness for C6 at the spec's Scenario D: a pool of the two f32
constants 1.0 and 2.0 yields `.rodata.cst4` of size 8. -/
theorem c6_writeConstantPool_witness :
    scenarioDPool ≠ [] ∧
    ∃ sec : BaseSection,
      (writeConstantPool .f32 scenarioDPool x8664Writer).roDataSections =
        x8664Writer.roDataSections ++ [sec] ∧
      sec.name = ".rodata.cst4" ∧ sec.size = 8 := by
  refine ⟨by decide, ?_⟩
  obtain ⟨sec, h1, h2, _, _, _, _, h7, _⟩ :=
    (c6_writeConstantPool_section_and_symbols .f32 scenarioDPool x8664Writer).2 (by decide)
  refine ⟨sec, h1, ?_, ?_⟩
  · rw [h2]
    decide
  · rw [h7]
    decide

/-! ### The function symbol created by writeFunctionCode -/

/-- The current size of the coalesced text section (the offset at which the
next function's code lands). -/
def curTextSize (st : ObjectWriterState) : Nat :=
  match st.textSections with
  | [] => 0
  | t :: _ => t.size

/-- The identity of the text section the next function is bound to (the
fresh id if `.text` is yet to be created). -/
def curTextId (st : ObjectWriterState) : Nat :=
  match st.textSections with
  | [] => st.nextId
  | t :: _ => t.id

theorem writeFunctionCode_symTab (funcName : String) (isInternal : Bool)
    (asm : Assembler) (st : ObjectWriterState) :
    (writeFunctionCode funcName isInternal asm st).symTab =
      createDefinedSym st.symTab funcName (if isInternal then STT_NOTYPE else STT_FUNC)
        (if isInternal then STB_LOCAL else STB_GLOBAL) (curTextId st) (curTextSize st) 0 := by
  cases hts : st.textSections <;>
    simp only [writeFunctionCode, curTextId, curTextSize, hts,
      apply_ite ObjectWriterState.symTab, ite_self]

/-- C3 (amended): every symbol created by `writeFunctionCode` has type
NOTYPE and binding LOCAL when `isInternal` is true, and type FUNC and
binding GLOBAL otherwise; its value is the function's offset within the
coalesced text section and its size is 0.  Constant-pool data symbols also
carry size 0 (the element size is carried by the section's sh_entsize)
rather than a non-zero size. -/
theorem c3_symbol_type_binding_size :
    (∀ (st : ObjectWriterState) (funcName : String) (isInternal : Bool) (asm : Assembler),
      (writeFunctionCode funcName isInternal asm st).symTab.locals =
        st.symTab.locals ++
          (if isInternal then
            [{ name := funcName, stType := STT_NOTYPE, binding := STB_LOCAL,
               sectionId := curTextId st, value := curTextSize st, size := 0 }]
          else []) ∧
      (writeFunctionCode funcName isInternal asm st).symTab.globals =
        st.symTab.globals ++
          (if isInternal then []
          else
            [{ name := funcName, stType := STT_FUNC, binding := STB_GLOBAL,
               sectionId := curTextId st, value := curTextSize st, size := 0 }])) ∧
    (∀ (st : ObjectWriterState) (ty : IceType) (pool : List PoolConstant),
      ∀ sym ∈ (writeConstantPool ty pool st).symTab.locals,
        sym ∈ st.symTab.locals ∨ sym.size = 0) := by
  constructor
  · intro st funcName isInternal asm
    rw [writeFunctionCode_symTab]
    cases isInternal <;>
      simp [createDefinedSym, STB_LOCAL, STB_GLOBAL, STT_NOTYPE, STT_FUNC]
  · intro st ty pool sym hmem
    by_cases hp : pool = []
    · subst hp
      exact Or.inl hmem
    · rw [writeConstantPool, if_neg (by simp [hp] : ¬(pool.isEmpty = true))] at hmem
      simp only [poolLoop_spec] at hmem
      rcases List.mem_append.mp hmem with h | h
      · exact Or.inl h
      · exact Or.inr (poolSymbols_size_zero _ _ _ _ sym h)

/-- Counterexample for C3's claim text: the data symbol created for a
pooled f32 constant carries size 0, not its real non-zero size 4. -/
theorem c3_counterexample_pool_symbol_size :
    ((writeConstantPool .f32 [{ label := "L$f32$0", value := 0x3f800000 }] x8664Writer).symTab.locals.map
        (fun s => (s.name, s.size))) = [("", 0), ("L$f32$0", 0)] ∧
      typeWidthInBytes .f32 = 4 := by
  exact ⟨by decide, rfl⟩

/-! ### Section-number assignment: ordering and pairing invariants -/

/-- The views of `l` carry consecutive section numbers starting at `n`. -/
def numberedFrom (n : Nat) (l : List SectionView) : Prop :=
  ∀ k v, l[k]? = some v → v.base.number = n + k

/-- Every relocation section in `l` is immediately preceded by its related
user section, its number is its `sh_info` plus one, and its `sh_info` is
the related user section's number; the list never starts with a relocation
section. -/
def relPaired (l : List SectionView) : Prop :=
  (∀ v, l[0]? = some v → v.relatedId = none) ∧
  (∀ k v uid, l[k + 1]? = some v → v.relatedId = some uid →
    ∃ u, l[k]? = some u ∧ u.relatedId = none ∧ u.base.id = uid ∧
      v.base.number = v.base.infoNum + 1 ∧ u.base.number = v.base.infoNum)

theorem numberedFrom_nil (n : Nat) : numberedFrom n [] := by
  intro k v h
  simp at h

theorem numberedFrom_cons (n : Nat) (v : SectionView) (l : List SectionView)
    (hv : v.base.number = n) (hl : numberedFrom (n + 1) l) : numberedFrom n (v :: l) := by
  intro k w h
  cases k with
  | zero =>
    rw [List.getElem?_cons_zero] at h
    injection h with h2
    subst h2
    omega
  | succ k =>
    rw [List.getElem?_cons_succ] at h
    have h3 := hl k w h
    omega

theorem numberedFrom_append (n : Nat) (l1 l2 : List SectionView)
    (h1 : numberedFrom n l1) (h2 : numberedFrom (n + l1.length) l2) :
    numberedFrom n (l1 ++ l2) := by
  intro k v h
  rw [List.getElem?_append] at h
  split at h
  · exact h1 k v h
  · have h3 := h2 (k - l1.length) v h
    omega

theorem relPaired_nil : relPaired [] := by
  constructor
  · intro v h
    simp at h
  · intro k v uid h
    simp at h

theorem relPaired_cons (v : SectionView) (l : List SectionView)
    (hv : v.relatedId = none) (hl : relPaired l) : relPaired (v :: l) := by
  constructor
  · intro w h
    rw [List.getElem?_cons_zero] at h
    injection h with h2
    rw [← h2]
    exact hv
  · intro k w uid h hrel
    rw [List.getElem?_cons_succ] at h
    cases k with
    | zero =>
      exact absurd hrel (by rw [hl.1 w h]; simp)
    | succ j =>
      obtain ⟨u, hu, h2, h3, h4, h5⟩ := hl.2 j w uid h hrel
      exact ⟨u, by rw [List.getElem?_cons_succ]; exact hu, h2, h3, h4, h5⟩

theorem relPaired_cons_pair (u v : SectionView) (l : List SectionView)
    (hu : u.relatedId = none) (hv : ∀ uid, v.relatedId = some uid → u.base.id = uid)
    (hnum : v.base.number = v.base.infoNum + 1) (hinfo : u.base.number = v.base.infoNum)
    (hl : relPaired l) : relPaired (u :: v :: l) := by
  constructor
  · intro w h
    rw [List.getElem?_cons_zero] at h
    injection h with h2
    rw [← h2]
    exact hu
  · intro k w uid h hrel
    rw [List.getElem?_cons_succ] at h
    cases k with
    | zero =>
      rw [List.getElem?_cons_zero] at h
      injection h with h2
      subst h2
      exact ⟨u, by rw [List.getElem?_cons_zero], hu, hv uid hrel, hnum, hinfo⟩
    | succ j =>
      rw [List.getElem?_cons_succ] at h
      cases j with
      | zero =>
        exact absurd hrel (by rw [hl.1 w h]; simp)
      | succ i =>
        obtain ⟨u2, hu2, h2, h3, h4, h5⟩ := hl.2 i w uid h hrel
        refine ⟨u2, ?_, h2, h3, h4, h5⟩
        rw [List.getElem?_cons_succ, List.getElem?_cons_succ]
        exact hu2

theorem relPaired_append (l1 l2 : List SectionView)
    (h1 : relPaired l1) (h2 : relPaired l2) : relPaired (l1 ++ l2) := by
  constructor
  · intro v h
    cases l1 with
    | nil => exact h2.1 v h
    | cons a t =>
      rw [List.getElem?_append, if_pos (by simp)] at h
      exact h1.1 v h
  · intro k v uid h hrel
    rw [List.getElem?_append] at h
    split at h
    · rename_i hlt
      obtain ⟨u, hu, hrest⟩ := h1.2 k v uid h hrel
      refine ⟨u, ?_, hrest⟩
      rw [List.getElem?_append, if_pos (by omega)]
      exact hu
    · rename_i hge
      rcases Nat.lt_or_ge k l1.length with hk | hk
      · have hkk : k + 1 - l1.length = 0 := by omega
        rw [hkk] at h
        exact absurd hrel (by rw [h2.1 v h]; simp)
      · have hkk : k + 1 - l1.length = (k - l1.length) + 1 := by omega
        rw [hkk] at h
        obtain ⟨u, hu, hrest⟩ := h2.2 (k - l1.length) v uid h hrel
        refine ⟨u, ?_, hrest⟩
        rw [List.getElem?_append, if_neg (by omega)]
        exact hu

theorem assignPairs_props (gi : String → Nat) (cur : Nat) (users : List BaseSection)
    (rels : List ELFRelocationSection) :
    (assignRelSectionNumInPairs gi cur users rels).1 =
      cur + (assignRelSectionNumInPairs gi cur users rels).2.2.2.length ∧
    numberedFrom cur (assignRelSectionNumInPairs gi cur users rels).2.2.2 ∧
    relPaired (assignRelSectionNumInPairs gi cur users rels).2.2.2 := by
  induction users generalizing cur rels with
  | nil =>
    refine ⟨rfl, numberedFrom_nil cur, relPaired_nil⟩
  | cons u us ih =>
    cases rels with
    | nil =>
      have h := ih (cur + 1) []
      simp only [assignRelSectionNumInPairs]
      refine ⟨?_, ?_, ?_⟩
      · rw [h.1]
        simp only [List.length_cons]
        omega
      · exact numberedFrom_cons _ _ _ rfl h.2.1
      · exact relPaired_cons _ _ rfl h.2.2
    | cons r rs =>
      by_cases hrel : r.relatedId = u.id
      · have h := ih (cur + 2) rs
        simp only [assignRelSectionNumInPairs, if_pos hrel]
        refine ⟨?_, ?_, ?_⟩
        · rw [h.1]
          simp only [List.length_cons]
          omega
        · exact numberedFrom_cons _ _ _ rfl (numberedFrom_cons _ _ _ rfl h.2.1)
        · refine relPaired_cons_pair _ _ _ rfl ?_ rfl rfl h.2.2
          intro uid h2
          injection h2 with h3
          rw [← h3, hrel]
          exact rfl
      · have h := ih (cur + 1) (r :: rs)
        simp only [assignRelSectionNumInPairs, if_neg hrel]
        refine ⟨?_, ?_, ?_⟩
        · rw [h.1]
          simp only [List.length_cons]
          omega
        · exact numberedFrom_cons _ _ _ rfl h.2.1
        · exact relPaired_cons _ _ rfl h.2.2

/-- C1: `assignSectionNumbersInfo` assigns consecutive section numbers in
`AllSections` order starting with the null section at number 0; the
produced list is the null section, then the bucket contents (user sections
with their paired relocation sections interleaved), then `.shstrtab`,
`.symtab` and `.strtab`; every relocation section in the list has an
assigned number equal to its `sh_info + 1` and is immediately preceded by
its related user section, whose number is the relocation section's
`sh_info`. -/
theorem c1_section_numbers_and_pairing (st : ObjectWriterState) :
    numberedFrom 0 (assignSectionNumbersInfo st).2 ∧
    relPaired (assignSectionNumbersInfo st).2 ∧
    (∃ mid, (assignSectionNumbersInfo st).2 =
      viewOfUser (assignSectionNumbersInfo st).1.nullSection :: mid ++
        [viewOfUser (assignSectionNumbersInfo st).1.shStrTab.base,
         viewOfUser (assignSectionNumbersInfo st).1.symTab.base,
         viewOfUser (assignSectionNumbersInfo st).1.strTab.base]) ∧
    (assignSectionNumbersInfo st).1.nullSection.number = 0 ∧
    (assignSectionNumbersInfo st).1.symTab.base.number =
      (assignSectionNumbersInfo st).1.shStrTab.base.number + 1 ∧
    (assignSectionNumbersInfo st).1.strTab.base.number =
      (assignSectionNumbersInfo st).1.symTab.base.number + 1 := by
  obtain ⟨hl1, hn1, hp1⟩ := assignPairs_props (getIndex st.shStrTab.strings) 1
    st.textSections st.relTextSections
  obtain ⟨hl2, hn2, hp2⟩ := assignPairs_props (getIndex st.shStrTab.strings)
    (assignRelSectionNumInPairs (getIndex st.shStrTab.strings) 1
      st.textSections st.relTextSections).1
    st.dataSections st.relDataSections
  obtain ⟨hl3, hn3, hp3⟩ := assignPairs_props (getIndex st.shStrTab.strings)
    (assignRelSectionNumInPairs (getIndex st.shStrTab.strings)
      (assignRelSectionNumInPairs (getIndex st.shStrTab.strings) 1
        st.textSections st.relTextSections).1
      st.dataSections st.relDataSections).1
    st.roDataSections st.relRoDataSections
  simp only [assignSectionNumbersInfo]
  set gi := getIndex st.shStrTab.strings with hgi
  set A1 := assignRelSectionNumInPairs gi 1 st.textSections st.relTextSections with hA1
  set A2 := assignRelSectionNumInPairs gi A1.1 st.dataSections st.relDataSections with hA2
  set A3 := assignRelSectionNumInPairs gi A2.1 st.roDataSections st.relRoDataSections with hA3
  have e2 : 1 + (A1.2.2.2 ++ A2.2.2.2).length = A2.1 := by
    rw [List.length_append]
    omega
  have e3 : 1 + ((A1.2.2.2 ++ A2.2.2.2) ++ A3.2.2.2).length = A3.1 := by
    rw [List.length_append, List.length_append]
    omega
  refine ⟨?_, ?_, ⟨_, rfl⟩, by trivial, by trivial, by trivial⟩
  · refine numberedFrom_cons _ _ _ rfl
      (numberedFrom_append _ _ _
        (numberedFrom_append _ _ _ (numberedFrom_append _ _ _ hn1 ?_) ?_) ?_)
    · exact hl1 ▸ hn2
    · rw [e2]
      exact hn3
    · rw [e3]
      refine numberedFrom_cons _ _ _ rfl (numberedFrom_cons _ _ _ rfl
        (numberedFrom_cons _ _ _ rfl (numberedFrom_nil _)))
  · refine relPaired_cons _ _ rfl
      (relPaired_append _ _ (relPaired_append _ _ (relPaired_append _ _ hp1 hp2) hp3) ?_)
    exact relPaired_cons _ _ rfl (relPaired_cons _ _ rfl
      (relPaired_cons _ _ rfl relPaired_nil))

/-! ### The coalesced text relocation section across many functions -/

/-- The driver loop: one `writeFunctionCode` call per compiled function,
in order; each call is (name, isInternal, assembler). -/
def writeFunctionCodes (calls : List (String × Bool × Assembler))
    (st : ObjectWriterState) : ObjectWriterState :=
  match calls with
  | [] => st
  | c :: cs => writeFunctionCodes cs (writeFunctionCode c.1 c.2.1 c.2.2 st)

/-- The relocation entries the text relocation section should hold after a
sequence of function emissions starting at text offset `ofs`: each call's
fixups with offsets adjusted by the function's start offset, in emission
order. -/
def expectedRelEntries : Nat → List (String × Bool × Assembler) → List RelocEntry
  | _, [] => []
  | ofs, c :: cs =>
    c.2.2.fixups.map (fun e => { e with offset := ofs + e.offset }) ++
      expectedRelEntries (ofs + c.2.2.buffer.length) cs

/-- The name of the text relocation section: `.rela.text` for ELF64,
`.rel.text` for ELF32. -/
def relTextName (isELF64 : Bool) : String :=
  (if isELF64 then ".rela" else ".rel") ++ ".text"

/-- The invariant maintained by `writeFunctionCode` over the text bucket:
the writer targets class `is64`; there is no text section yet (and then no
text relocation section and no accumulated entries), or exactly one text
section of size `ofs`, paired with either no text relocation section (no
fixups seen) or exactly one, named and parameterized per the class, related
to the text section, holding exactly the accumulated entries `acc`. -/
def RelTextInv (is64 : Bool) (ofs : Nat) (acc : List RelocEntry)
    (st : ObjectWriterState) : Prop :=
  st.isELF64 = is64 ∧
  match st.textSections with
  | [] => ofs = 0 ∧ st.relTextSections = [] ∧ acc = []
  | [t] => t.size = ofs ∧
      ((st.relTextSections = [] ∧ acc = []) ∨
       (∃ r, st.relTextSections = [r] ∧ r.base.name = relTextName is64 ∧
          r.base.shType = (if is64 then SHT_RELA else SHT_REL) ∧
          r.base.shEntsize = (if is64 then 24 else 8) ∧
          r.base.shAddralign = (if is64 then 8 else 4) ∧
          r.relatedId = t.id ∧ r.fixups = acc ∧ acc ≠ []))
  | _ :: _ :: _ => False

theorem writeFunctionCode_isELF64 (name : String) (isInt : Bool) (asm : Assembler)
    (st : ObjectWriterState) :
    (writeFunctionCode name isInt asm st).isELF64 = st.isELF64 := by
  rw [writeFunctionCode]
  cases hts : st.textSections <;>
    simp only [apply_ite ObjectWriterState.isELF64, ite_self]

theorem writeFunctionCode_empty_fixups (name : String) (isInt : Bool) (asm : Assembler)
    (st : ObjectWriterState) (h : asm.fixups = []) :
    (writeFunctionCode name isInt asm st).relTextSections = st.relTextSections := by
  rw [writeFunctionCode]
  cases hts : st.textSections <;>
    · dsimp only
      rw [if_pos (by simp [h] : asm.fixups.isEmpty = true)]

theorem writeFunctionCode_inv (is64 : Bool) (ofs : Nat) (acc : List RelocEntry)
    (st : ObjectWriterState) (name : String) (isInt : Bool) (asm : Assembler)
    (h : RelTextInv is64 ofs acc st) :
    RelTextInv is64 (ofs + asm.buffer.length)
      (acc ++ asm.fixups.map (fun e => { e with offset := ofs + e.offset }))
      (writeFunctionCode name isInt asm st) := by
  obtain ⟨h64, hrest⟩ := h
  subst h64
  rw [writeFunctionCode]
  cases hts : st.textSections with
  | nil =>
    rw [hts] at hrest
    simp only [RelTextInv] at hrest
    obtain ⟨hofs, hrel, hacc⟩ := hrest
    subst hofs
    subst hacc
    dsimp only
    by_cases hfe : asm.fixups.isEmpty = true
    · have hfix : asm.fixups = [] := List.isEmpty_iff.mp hfe
      rw [if_pos hfe]
      exact ⟨rfl, rfl, Or.inl ⟨hrel, by simp [hfix]⟩⟩
    · have hfix : asm.fixups ≠ [] := by simpa using hfe
      rw [if_neg hfe]
      rw [hrel]
      simp only [List.any_nil, Bool.false_eq_true, if_false, List.nil_append,
        addRelocationsTo, if_pos rfl, addRelocations]
      refine ⟨rfl, rfl, Or.inr ⟨_, rfl, rfl, rfl, rfl, rfl, rfl, by simp, by simp [hfix]⟩⟩
  | cons t ts =>
    cases ts with
    | cons t2 ts2 =>
      rw [hts] at hrest
      simp only [RelTextInv] at hrest
    | nil =>
      rw [hts] at hrest
      simp only [RelTextInv] at hrest
      obtain ⟨hsize, hsub⟩ := hrest
      dsimp only
      by_cases hfe : asm.fixups.isEmpty = true
      · have hfix : asm.fixups = [] := List.isEmpty_iff.mp hfe
        rw [if_pos hfe]
        refine ⟨rfl, by rw [hsize], ?_⟩
        rcases hsub with ⟨hrel, hacc⟩ | ⟨r, hrel1, hname, h1, h2, h3, h4, h5, h6⟩
        · exact Or.inl ⟨hrel, by simp [hfix, hacc]⟩
        · exact Or.inr ⟨r, hrel1, hname, h1, h2, h3, h4,
            by simp [hfix, h5], by simp [hfix, h6]⟩
      · have hfix : asm.fixups ≠ [] := by simpa using hfe
        rw [if_neg hfe]
        rcases hsub with ⟨hrel, hacc⟩ | ⟨r, hrel1, hname, h1, h2, h3, h4, h5, h6⟩
        · subst hacc
          rw [hrel]
          simp only [List.any_nil, Bool.false_eq_true, if_false, List.nil_append,
            addRelocationsTo, if_pos rfl, addRelocations]
          refine ⟨rfl, by rw [hsize], Or.inr ⟨_, rfl, rfl, rfl, rfl, rfl, rfl,
            by simp [hsize], by simp [hfix]⟩⟩
        · rw [hrel1]
          have hcond : r.base.name = (if st.isELF64 then ".rela" else ".rel") ++ ".text" := by
            rw [hname, relTextName]
          have hany : ([r].any fun s =>
              s.base.name = (if st.isELF64 then ".rela" else ".rel") ++ ".text") = true := by
            simp only [List.any_cons, List.any_nil, Bool.or_false, decide_eq_true_eq]
            exact hcond
          rw [if_pos hany]
          simp only [addRelocationsTo, addRelocations]
          rw [if_pos hcond]
          refine ⟨rfl, by rw [hsize], Or.inr ⟨_, rfl, hname, h1, h2, h3, h4, ?_, ?_⟩⟩
          · rw [h5, hsize]
          · simp [h6]

theorem writeFunctionCodes_inv (is64 : Bool) (calls : List (String × Bool × Assembler))
    (ofs : Nat) (acc : List RelocEntry) (st : ObjectWriterState)
    (h : RelTextInv is64 ofs acc st) :
    RelTextInv is64 (ofs + (calls.map (fun c => c.2.2.buffer.length)).sum)
      (acc ++ expectedRelEntries ofs calls) (writeFunctionCodes calls st) := by
  induction calls generalizing ofs acc st with
  | nil => simpa [writeFunctionCodes, expectedRelEntries] using h
  | cons c cs ih =>
    have h2 := writeFunctionCode_inv is64 ofs acc st c.1 c.2.1 c.2.2 h
    have h3 := ih (ofs + c.2.2.buffer.length) _ _ h2
    rw [writeFunctionCodes]
    have e1 : ofs + ((c :: cs).map (fun c => c.2.2.buffer.length)).sum =
        ofs + c.2.2.buffer.length + (cs.map (fun c => c.2.2.buffer.length)).sum := by
      simp only [List.map_cons, List.sum_cons]
      omega
    have e2 : acc ++ expectedRelEntries ofs (c :: cs) =
        (acc ++ c.2.2.fixups.map (fun e => { e with offset := ofs + e.offset })) ++
          expectedRelEntries (ofs + c.2.2.buffer.length) cs := by
      rw [expectedRelEntries, List.append_assoc]
    rw [e1, e2]
    exact h3

theorem expectedRelEntries_eq_nil (ofs : Nat) (calls : List (String × Bool × Assembler)) :
    expectedRelEntries ofs calls = [] ↔ ∀ c ∈ calls, c.2.2.fixups = [] := by
  induction calls generalizing ofs with
  | nil => simp [expectedRelEntries]
  | cons c cs ih =>
    simp [expectedRelEntries, ih]

/-- C5: starting from a writer with no text section, a sequence of
`writeFunctionCode` calls produces no text relocation section when every
call's fixup list is empty (a call with no fixups never touches the
relocation bucket), and exactly one otherwise — named `.rela.text`
(ELF64) or `.rel.text` (ELF32), with sh_type SHT_RELA or SHT_REL, entsize
24 or 8, alignment 8 or 4, related to the single coalesced text section —
whose entries are all the calls' fixups in emission order, each offset
adjusted by its function's offset within the text section. -/
theorem c5_single_rel_text_section (st : ObjectWriterState)
    (calls : List (String × Bool × Assembler))
    (hT : st.textSections = []) (hR : st.relTextSections = []) :
    (∀ (fname : String) (isInt : Bool) (asm : Assembler) (s : ObjectWriterState),
      asm.fixups = [] →
        (writeFunctionCode fname isInt asm s).relTextSections = s.relTextSections) ∧
    ((∀ c ∈ calls, c.2.2.fixups = []) →
      (writeFunctionCodes calls st).relTextSections = []) ∧
    (¬ (∀ c ∈ calls, c.2.2.fixups = []) →
      ∃ r t, (writeFunctionCodes calls st).textSections = [t] ∧
        (writeFunctionCodes calls st).relTextSections = [r] ∧
        r.base.name = relTextName st.isELF64 ∧
        r.base.shType = (if st.isELF64 then SHT_RELA else SHT_REL) ∧
        r.base.shEntsize = (if st.isELF64 then 24 else 8) ∧
        r.base.shAddralign = (if st.isELF64 then 8 else 4) ∧
        r.relatedId = t.id ∧
        r.fixups = expectedRelEntries 0 calls) := by
  have hinv : RelTextInv st.isELF64 0 [] st := by
    rw [RelTextInv, hT]
    exact ⟨rfl, rfl, hR, rfl⟩
  have hfold := writeFunctionCodes_inv st.isELF64 calls 0 [] st hinv
  rw [RelTextInv] at hfold
  simp only [List.nil_append] at hfold
  obtain ⟨h64, hrest⟩ := hfold
  refine ⟨fun fname isInt asm s hf => writeFunctionCode_empty_fixups fname isInt asm s hf,
    ?_, ?_⟩
  · intro hall
    have hemp : expectedRelEntries 0 calls = [] :=
      (expectedRelEntries_eq_nil 0 calls).mpr hall
    split at hrest
    · exact hrest.2.1
    · rcases hrest.2 with ⟨hrel, _⟩ | ⟨r, _, _, _, _, _, _, _, hne⟩
      · exact hrel
      · exact absurd hemp hne
    · exact absurd hrest (by simp)
  · intro hne
    have hemp : expectedRelEntries 0 calls ≠ [] :=
      fun h => hne ((expectedRelEntries_eq_nil 0 calls).mp h)
    split at hrest
    · exact absurd hrest.2.2 hemp
    · rcases hrest.2 with ⟨_, hacc⟩ | ⟨r, hrel1, hnm, h1, h2, h3, h4, h5, h6⟩
      · exact absurd hacc hemp
      · rename_i t heq
        exact ⟨r, t, heq, hrel1, hnm, h1, h2, h3, h4, h5⟩
    · exact absurd hrest (by simp)

/-- The spec's Scenario E: two functions, both with fixups. -/
def scenarioECalls : List (String × Bool × Assembler) :=
  [("a", false,
    { buffer := [0x90],
      fixups := [{ offset := 0, relType := 2, symName := "x", addend := -4 }] }),
   ("b", false,
    { buffer := [0xe8, 0, 0, 0, 0],
      fixups := [{ offset := 1, relType := 2, symName := "a", addend := -4 }] })]

/-- Witness for C5 at the spec's Scenario E: two functions with fixups on a
fresh x86-64 writer yield exactly one `.rela.text` whose entries are the
adjusted fixups in emission order. -/
theorem c5_single_rel_text_section_witness :
    ∃ r t, (writeFunctionCodes scenarioECalls x8664Writer).textSections = [t] ∧
      (writeFunctionCodes scenarioECalls x8664Writer).relTextSections = [r] ∧
      r.base.name = ".rela.text" ∧ r.relatedId = t.id ∧
      r.fixups = expectedRelEntries 0 scenarioECalls := by
  obtain ⟨r, t, h1, h2, h3, _, _, _, h7, h8⟩ :=
    (c5_single_rel_text_section x8664Writer scenarioECalls rfl rfl).2.2 (by decide)
  refine ⟨r, t, h1, h2, ?_, h7, h8⟩
  rw [h3]
  decide

/-- Witness for C3 at concrete inputs: the symbol created for a pooled f32
constant on a fresh x86-64 writer is either pre-existing or has size 0. -/
theorem c3_symbol_type_binding_size_witness :
    ({ name := "L$f32$0", stType := 0, binding := 0, sectionId := 4, value := 0,
       size := 0 } : SymEntry) ∈ x8664Writer.symTab.locals ∨
    ({ name := "L$f32$0", stType := 0, binding := 0, sectionId := 4, value := 0,
       size := 0 } : SymEntry).size = 0 :=
  c3_symbol_type_binding_size.2 x8664Writer .f32
    [{ label := "L$f32$0", value := 0x3f800000 }] _ (by decide)

/-! ### Decoding header fields from the finished file -/

theorem readLE_append_right (a b : List Nat) (i k : Nat) (h : a.length ≤ i) :
    readLE (a ++ b) i k = readLE b (i - a.length) k := by
  unfold readLE
  rw [List.drop_append_eq_append_drop, List.drop_eq_nil_of_le h, List.nil_append]

theorem readLE_leBytes (k n : Nat) (q : List Nat) :
    readLE (leBytes k n ++ q) 0 k = n % 256 ^ k := by
  unfold readLE
  rw [List.drop_zero, List.take_left' (leBytes_length k n), readNat_leBytes]

theorem readLE_chunk (p q : List Nat) (k n pos : Nat) (hp : p.length = pos) :
    readLE (p ++ (leBytes k n ++ q)) pos k = n % 256 ^ k := by
  subst hp
  rw [readLE_append_right p _ p.length k le_rfl, Nat.sub_self, readLE_leBytes]

theorem writeELFHeaderInternal_some_bounds (isELF64 : Bool)
    (machine eflags shoff strndx num : Nat) (hdr : List Nat)
    (h : writeELFHeaderInternal isELF64 machine eflags shoff strndx num = some hdr) :
    num < SHN_LORESERVE ∧ strndx < SHN_LORESERVE := by
  rw [writeELFHeaderInternal] at h
  split at h
  · assumption
  · cases h

/-- The three patched fields of the ELF header, decoded from the finished
file (the header followed by the rest of the file): e_shoff at byte offset
40 (ELF64) or 32 (ELF32), e_shnum at 60 or 48, e_shstrndx at 62 or 50. -/
theorem elfHeader_fields (isELF64 : Bool) (machine eflags shoff strndx num : Nat)
    (hdr rest : List Nat)
    (h : writeELFHeaderInternal isELF64 machine eflags shoff strndx num = some hdr) :
    readLE (hdr ++ rest) (if isELF64 then 40 else 32) (addrSize isELF64) =
      shoff % 256 ^ addrSize isELF64 ∧
    readLE (hdr ++ rest) (if isELF64 then 60 else 48) 2 = num ∧
    readLE (hdr ++ rest) (if isELF64 then 62 else 50) 2 = strndx := by
  obtain ⟨hnum, hstr⟩ := writeELFHeaderInternal_some_bounds _ _ _ _ _ _ _ h
  rw [writeELFHeaderInternal] at h
  rw [if_pos ⟨hnum, hstr⟩] at h
  injection h with h2
  subst h2
  have hmod2 : ∀ m : Nat, m < SHN_LORESERVE → m % 256 ^ 2 = m := by
    intro m hm
    apply Nat.mod_eq_of_lt
    have : SHN_LORESERVE ≤ 256 ^ 2 := by norm_num [SHN_LORESERVE]
    omega
  cases isELF64
  · refine ⟨?_, ?_, ?_⟩
    · have hsplit : (elfIdent false ++
          (leBytes 2 ET_REL ++ (leBytes 2 machine ++ (leBytes 4 1 ++
          (leBytes (addrSize false) 0 ++ (leBytes (addrSize false) 0 ++
          (leBytes (addrSize false) shoff ++ (leBytes 4 eflags ++
          (leBytes 2 (ehdrSize false) ++ (leBytes 2 0 ++ (leBytes 2 0 ++
          (leBytes 2 (shdrSize false) ++ (leBytes 2 num ++
          leBytes 2 strndx)))))))))))) ++ rest) =
          (elfIdent false ++ leBytes 2 ET_REL ++ leBytes 2 machine ++ leBytes 4 1 ++
            leBytes (addrSize false) 0 ++ leBytes (addrSize false) 0) ++
          (leBytes (addrSize false) shoff ++
            (leBytes 4 eflags ++ leBytes 2 (ehdrSize false) ++ leBytes 2 0 ++
              leBytes 2 0 ++ leBytes 2 (shdrSize false) ++ leBytes 2 num ++
              leBytes 2 strndx ++ rest)) := by
        simp [List.append_assoc]
      rw [hsplit]
      exact readLE_chunk _ _ _ _ _ (by simp [elfIdent_length, leBytes_length, addrSize])
    · have hsplit : (elfIdent false ++
          (leBytes 2 ET_REL ++ (leBytes 2 machine ++ (leBytes 4 1 ++
          (leBytes (addrSize false) 0 ++ (leBytes (addrSize false) 0 ++
          (leBytes (addrSize false) shoff ++ (leBytes 4 eflags ++
          (leBytes 2 (ehdrSize false) ++ (leBytes 2 0 ++ (leBytes 2 0 ++
          (leBytes 2 (shdrSize false) ++ (leBytes 2 num ++
          leBytes 2 strndx)))))))))))) ++ rest) =
          (elfIdent false ++ leBytes 2 ET_REL ++ leBytes 2 machine ++ leBytes 4 1 ++
            leBytes (addrSize false) 0 ++ leBytes (addrSize false) 0 ++
            leBytes (addrSize false) shoff ++ leBytes 4 eflags ++
            leBytes 2 (ehdrSize false) ++ leBytes 2 0 ++ leBytes 2 0 ++
            leBytes 2 (shdrSize false)) ++
          (leBytes 2 num ++ (leBytes 2 strndx ++ rest)) := by
        simp [List.append_assoc]
      rw [hsplit, readLE_chunk _ _ _ _ _
        (by simp [elfIdent_length, leBytes_length, addrSize])]
      exact hmod2 num hnum
    · have hsplit : (elfIdent false ++
          (leBytes 2 ET_REL ++ (leBytes 2 machine ++ (leBytes 4 1 ++
          (leBytes (addrSize false) 0 ++ (leBytes (addrSize false) 0 ++
          (leBytes (addrSize false) shoff ++ (leBytes 4 eflags ++
          (leBytes 2 (ehdrSize false) ++ (leBytes 2 0 ++ (leBytes 2 0 ++
          (leBytes 2 (shdrSize false) ++ (leBytes 2 num ++
          leBytes 2 strndx)))))))))))) ++ rest) =
          (elfIdent false ++ leBytes 2 ET_REL ++ leBytes 2 machine ++ leBytes 4 1 ++
            leBytes (addrSize false) 0 ++ leBytes (addrSize false) 0 ++
            leBytes (addrSize false) shoff ++ leBytes 4 eflags ++
            leBytes 2 (ehdrSize false) ++ leBytes 2 0 ++ leBytes 2 0 ++
            leBytes 2 (shdrSize false) ++ leBytes 2 num) ++
          (leBytes 2 strndx ++ rest) := by
        simp [List.append_assoc]
      rw [hsplit, readLE_chunk _ _ _ _ _
        (by simp [elfIdent_length, leBytes_length, addrSize])]
      exact hmod2 strndx hstr
  · refine ⟨?_, ?_, ?_⟩
    · have hsplit : (elfIdent true ++
          (leBytes 2 ET_REL ++ (leBytes 2 machine ++ (leBytes 4 1 ++
          (leBytes (addrSize true) 0 ++ (leBytes (addrSize true) 0 ++
          (leBytes (addrSize true) shoff ++ (leBytes 4 eflags ++
          (leBytes 2 (ehdrSize true) ++ (leBytes 2 0 ++ (leBytes 2 0 ++
          (leBytes 2 (shdrSize true) ++ (leBytes 2 num ++
          leBytes 2 strndx)))))))))))) ++ rest) =
          (elfIdent true ++ leBytes 2 ET_REL ++ leBytes 2 machine ++ leBytes 4 1 ++
            leBytes (addrSize true) 0 ++ leBytes (addrSize true) 0) ++
          (leBytes (addrSize true) shoff ++
            (leBytes 4 eflags ++ leBytes 2 (ehdrSize true) ++ leBytes 2 0 ++
              leBytes 2 0 ++ leBytes 2 (shdrSize true) ++ leBytes 2 num ++
              leBytes 2 strndx ++ rest)) := by
        simp [List.append_assoc]
      rw [hsplit]
      exact readLE_chunk _ _ _ _ _ (by simp [elfIdent_length, leBytes_length, addrSize])
    · have hsplit : (elfIdent true ++
          (leBytes 2 ET_REL ++ (leBytes 2 machine ++ (leBytes 4 1 ++
          (leBytes (addrSize true) 0 ++ (leBytes (addrSize true) 0 ++
          (leBytes (addrSize true) shoff ++ (leBytes 4 eflags ++
          (leBytes 2 (ehdrSize true) ++ (leBytes 2 0 ++ (leBytes 2 0 ++
          (leBytes 2 (shdrSize true) ++ (leBytes 2 num ++
          leBytes 2 strndx)))))))))))) ++ rest) =
          (elfIdent true ++ leBytes 2 ET_REL ++ leBytes 2 machine ++ leBytes 4 1 ++
            leBytes (addrSize true) 0 ++ leBytes (addrSize true) 0 ++
            leBytes (addrSize true) shoff ++ leBytes 4 eflags ++
            leBytes 2 (ehdrSize true) ++ leBytes 2 0 ++ leBytes 2 0 ++
            leBytes 2 (shdrSize true)) ++
          (leBytes 2 num ++ (leBytes 2 strndx ++ rest)) := by
        simp [List.append_assoc]
      rw [hsplit, readLE_chunk _ _ _ _ _
        (by simp [elfIdent_length, leBytes_length, addrSize])]
      exact hmod2 num hnum
    · have hsplit : (elfIdent true ++
          (leBytes 2 ET_REL ++ (leBytes 2 machine ++ (leBytes 4 1 ++
          (leBytes (addrSize true) 0 ++ (leBytes (addrSize true) 0 ++
          (leBytes (addrSize true) shoff ++ (leBytes 4 eflags ++
          (leBytes 2 (ehdrSize true) ++ (leBytes 2 0 ++ (leBytes 2 0 ++
          (leBytes 2 (shdrSize true) ++ (leBytes 2 num ++
          leBytes 2 strndx)))))))))))) ++ rest) =
          (elfIdent true ++ leBytes 2 ET_REL ++ leBytes 2 machine ++ leBytes 4 1 ++
            leBytes (addrSize true) 0 ++ leBytes (addrSize true) 0 ++
            leBytes (addrSize true) shoff ++ leBytes 4 eflags ++
            leBytes 2 (ehdrSize true) ++ leBytes 2 0 ++ leBytes 2 0 ++
            leBytes 2 (shdrSize true) ++ leBytes 2 num) ++
          (leBytes 2 strndx ++ rest) := by
        simp [List.append_assoc]
      rw [hsplit, readLE_chunk _ _ _ _ _
        (by simp [elfIdent_length, leBytes_length, addrSize])]
      exact hmod2 strndx hstr

theorem finalizeSections_shOffset_aligned (st : ObjectWriterState) :
    (finalizeSections st).2.2 % (if st.isELF64 then 8 else 4) = 0 := by
  cases h64 : st.isELF64 <;>
    simp only [finalizeSections, h64, Bool.false_eq_true, if_false, if_true]
  · exact (alignFileOffset_spec _ 2).1
  · exact (alignFileOffset_spec _ 3).1

/-- C2: after `writeNonUserSections`, the ELF header rewritten at file
offset 0 carries e_shoff equal to the aligned file offset `ShOffset` at
which the section-header table was written (a multiple of the header
alignment), e_shnum equal to the number of sections in `AllSections`
(necessarily below SHN_LORESERVE), and e_shstrndx equal to `.shstrtab`'s
assigned section number. -/
theorem c2_header_patch (st : ObjectWriterState) (out : FinalOutput)
    (h : writeNonUserSections st = some out) :
    readLE out.state.str (if st.isELF64 then 40 else 32) (addrSize st.isELF64) =
      out.shOffset % 256 ^ addrSize st.isELF64 ∧
    readLE out.state.str (if st.isELF64 then 60 else 48) 2 = out.allSections.length ∧
    readLE out.state.str (if st.isELF64 then 62 else 50) 2 =
      out.state.shStrTab.base.number ∧
    out.allSections.length < SHN_LORESERVE ∧
    out.shOffset % (if st.isELF64 then 8 else 4) = 0 := by
  rw [writeNonUserSections] at h
  split at h
  · rename_i hdr heq
    injection h with h2
    subst h2
    have hE : (finalizeSections st).1.isELF64 = st.isELF64 := rfl
    rw [hE] at heq
    obtain ⟨f1, f2, f3⟩ := elfHeader_fields st.isELF64 (finalizeSections st).1.machine
      (finalizeSections st).1.eflags (finalizeSections st).2.2
      (finalizeSections st).1.shStrTab.base.number (finalizeSections st).2.1.length
      hdr ((finalizeSections st).1.str.drop hdr.length) heq
    obtain ⟨hb1, hb2⟩ := writeELFHeaderInternal_some_bounds _ _ _ _ _ _ _ heq
    exact ⟨f1, f2, f3, hb1, finalizeSections_shOffset_aligned st⟩
  · cases h

/-- Witness for C2 at the spec's Scenario A (empty x86-64 module): the
finalized file has e_shnum = 4 and e_shstrndx = 1, decoded from the
patched header bytes. -/
theorem c2_header_patch_witness :
    ∃ out, writeNonUserSections x8664Writer = some out ∧
      out.allSections.length = 4 ∧ out.state.shStrTab.base.number = 1 ∧
      readLE out.state.str 60 2 = 4 ∧ readLE out.state.str 62 2 = 1 ∧
      readLE out.state.str 40 (addrSize true) = out.shOffset % 256 ^ addrSize true := by
  have hs : (writeNonUserSections x8664Writer).isSome = true := by decide
  obtain ⟨out, hout⟩ := Option.isSome_iff_exists.mp hs
  obtain ⟨f1, f2, f3, _, _⟩ := c2_header_patch x8664Writer out hout
  have h4 : (writeNonUserSections x8664Writer).map (fun o => o.allSections.length) =
      some 4 := by decide
  rw [hout] at h4
  injection h4 with h4
  have h1 : (writeNonUserSections x8664Writer).map
      (fun o => o.state.shStrTab.base.number) = some 1 := by decide
  rw [hout] at h1
  injection h1 with h1
  exact ⟨out, hout, h4, h1, by rw [← h4]; exact f2, by rw [← h1]; exact f3, f1⟩

/-! ### File-offset alignment of every written section -/

/-- A power of two, as `alignFileOffset` requires of its argument. -/
def IsPow2 (n : Nat) : Prop := ∃ k, n = 2 ^ k

theorem alignFileOffset_mod (f : List Nat) (a : Nat) (h : IsPow2 a) :
    (alignFileOffset f a).2 % a = 0 := by
  obtain ⟨k, rfl⟩ := h
  exact (alignFileOffset_spec f k).1

theorem alignFileOffset_len_mono (f : List Nat) (a : Nat) :
    f.length ≤ (alignFileOffset f a).1.length := by
  rw [alignFileOffset]
  split
  · exact le_rfl
  · simp

theorem append_len_mono (f x : List Nat) : f.length ≤ (f ++ x).length := by
  simp

theorem align_append_len_mono (f : List Nat) (a : Nat) (x : List Nat) :
    f.length ≤ ((alignFileOffset f a).1 ++ x).length :=
  le_trans (alignFileOffset_len_mono f a) (append_len_mono _ x)

theorem writeRelocationSections_aligned (isELF64 : Bool) (symTab : ELFSymbolTableSection)
    (rels : List ELFRelocationSection) (f : List Nat)
    (h : ∀ r ∈ rels, IsPow2 r.base.shAddralign) :
    ∀ r2 ∈ (writeRelocationSections isELF64 symTab rels f).1,
      r2.base.fileOffset % r2.base.shAddralign = 0 := by
  induction rels generalizing f with
  | nil =>
    intro r2 h2
    simp [writeRelocationSections] at h2
  | cons r rs ih =>
    intro r2 h2
    rw [writeRelocationSections] at h2
    rcases List.mem_cons.mp h2 with h3 | h3
    · subst h3
      exact alignFileOffset_mod _ _ (h r (List.mem_cons_self r rs))
    · exact ih _ (fun r4 h4 => h r4 (List.mem_cons_of_mem r h4)) r2 h3

theorem writeRelocationSections_str_mono (isELF64 : Bool)
    (symTab : ELFSymbolTableSection) (rels : List ELFRelocationSection) (f : List Nat) :
    f.length ≤ (writeRelocationSections isELF64 symTab rels f).2.length := by
  induction rels generalizing f with
  | nil => exact le_rfl
  | cons r rs ih =>
    rw [writeRelocationSections]
    exact le_trans (align_append_len_mono f r.base.shAddralign _) (ih _)

theorem assignPairs_rels_align (gi : String → Nat) (cur : Nat) (users : List BaseSection)
    (rels : List ELFRelocationSection) :
    ∀ r2 ∈ (assignRelSectionNumInPairs gi cur users rels).2.2.1,
      ∃ r ∈ rels, r2.base.shAddralign = r.base.shAddralign := by
  induction users generalizing cur rels with
  | nil =>
    intro r2 h2
    exact ⟨r2, h2, rfl⟩
  | cons u us ih =>
    intro r2 h2
    cases rels with
    | nil =>
      simp only [assignRelSectionNumInPairs] at h2
      exact ih (cur + 1) [] r2 h2
    | cons r rs =>
      by_cases hrel : r.relatedId = u.id
      · simp only [assignRelSectionNumInPairs, if_pos hrel] at h2
        rcases List.mem_cons.mp h2 with h3 | h3
        · subst h3
          exact ⟨r, List.mem_cons_self r rs, rfl⟩
        · obtain ⟨r0, hr0, heq⟩ := ih (cur + 2) rs r2 h3
          exact ⟨r0, List.mem_cons_of_mem r hr0, heq⟩
      · simp only [assignRelSectionNumInPairs, if_neg hrel] at h2
        exact ih (cur + 1) (r :: rs) r2 h2

theorem assignRelLinkNum_align (n : Nat) (rels : List ELFRelocationSection) :
    ∀ r2 ∈ assignRelLinkNum n rels,
      ∃ r ∈ rels, r2.base.shAddralign = r.base.shAddralign := by
  intro r2 h2
  rw [assignRelLinkNum] at h2
  obtain ⟨r, hr, heq⟩ := List.mem_map.mp h2
  exact ⟨r, hr, by rw [← heq]⟩

theorem assignSectionNumbersInfo_rels_align (st : ObjectWriterState) :
    (∀ r2 ∈ (assignSectionNumbersInfo st).1.relTextSections,
      ∃ r ∈ st.relTextSections, r2.base.shAddralign = r.base.shAddralign) ∧
    (∀ r2 ∈ (assignSectionNumbersInfo st).1.relDataSections,
      ∃ r ∈ st.relDataSections, r2.base.shAddralign = r.base.shAddralign) ∧
    (∀ r2 ∈ (assignSectionNumbersInfo st).1.relRoDataSections,
      ∃ r ∈ st.relRoDataSections, r2.base.shAddralign = r.base.shAddralign) := by
  refine ⟨?_, ?_, ?_⟩ <;>
    · intro r2 h2
      simp only [assignSectionNumbersInfo] at h2
      obtain ⟨r1, hr1, heq1⟩ := assignRelLinkNum_align _ _ r2 h2
      obtain ⟨r0, hr0, heq0⟩ := assignPairs_rels_align _ _ _ _ r1 hr1
      exact ⟨r0, hr0, heq1.trans heq0⟩

theorem finalizeSections_fixed_offsets (st : ObjectWriterState) :
    (finalizeSections st).1.shStrTab.base.fileOffset =
      (alignFileOffset st.str st.shStrTab.base.shAddralign).2 ∧
    (finalizeSections st).1.shStrTab.base.shAddralign = st.shStrTab.base.shAddralign ∧
    (∃ f, (finalizeSections st).1.symTab.base.fileOffset =
      (alignFileOffset f st.symTab.base.shAddralign).2) ∧
    (finalizeSections st).1.symTab.base.shAddralign = st.symTab.base.shAddralign ∧
    (∃ f, (finalizeSections st).1.strTab.base.fileOffset =
      (alignFileOffset f st.strTab.base.shAddralign).2) ∧
    (finalizeSections st).1.strTab.base.shAddralign = st.strTab.base.shAddralign :=
  ⟨rfl, rfl, ⟨_, rfl⟩, rfl, ⟨_, rfl⟩, rfl⟩

theorem finalizeSections_rels_aligned (st : ObjectWriterState)
    (h4 : ∀ r ∈ st.relTextSections, IsPow2 r.base.shAddralign)
    (h5 : ∀ r ∈ st.relDataSections, IsPow2 r.base.shAddralign)
    (h6 : ∀ r ∈ st.relRoDataSections, IsPow2 r.base.shAddralign) :
    (∀ r ∈ (finalizeSections st).1.relTextSections,
      r.base.fileOffset % r.base.shAddralign = 0) ∧
    (∀ r ∈ (finalizeSections st).1.relDataSections,
      r.base.fileOffset % r.base.shAddralign = 0) ∧
    (∀ r ∈ (finalizeSections st).1.relRoDataSections,
      r.base.fileOffset % r.base.shAddralign = 0) := by
  simp only [finalizeSections, writeAllRelocationSections]
  refine ⟨writeRelocationSections_aligned _ _ _ _ ?_,
    writeRelocationSections_aligned _ _ _ _ ?_,
    writeRelocationSections_aligned _ _ _ _ ?_⟩ <;>
    · intro r2 h2
      obtain ⟨r1, hr1, e1⟩ := assignRelLinkNum_align _ _ r2 h2
      obtain ⟨r0, hr0, e0⟩ := assignPairs_rels_align _ _ _ _ r1 hr1
      rw [e1, e0]
      first
        | exact h4 r0 hr0
        | exact h5 r0 hr0
        | exact h6 r0 hr0

theorem finalizeSections_str_mono (st : ObjectWriterState) :
    st.str.length ≤ (finalizeSections st).1.str.length := by
  simp only [finalizeSections, writeAllRelocationSections]
  exact le_trans (align_append_len_mono _ _ _)
    (le_trans (align_append_len_mono _ _ _)
      (le_trans (align_append_len_mono _ _ _)
        (le_trans (writeRelocationSections_str_mono _ _ _ _)
          (le_trans (writeRelocationSections_str_mono _ _ _ _)
            (le_trans (writeRelocationSections_str_mono _ _ _ _)
              (align_append_len_mono _ _ _))))))

/-- C8: `alignFileOffset` pads the sink with zero bytes until the offset is
a multiple of the (power-of-two) alignment and returns the new position,
never shrinking the file; consequently every section the writer emits gets
a file offset that is a multiple of its sh_addralign — `.shstrtab`,
`.symtab`, `.strtab` and all relocation sections during finalization, the
`.text` section at creation (alignment 32), and each constant-pool section
at creation — the section-header table offset is aligned, and the file only
grows across the finalization writes. -/
theorem c8_aligned_offsets_and_zero_padding (st : ObjectWriterState) (out : FinalOutput)
    (k1 k2 k3 : Nat)
    (h : writeNonUserSections st = some out)
    (h1 : st.shStrTab.base.shAddralign = 2 ^ k1)
    (h2 : st.symTab.base.shAddralign = 2 ^ k2)
    (h3 : st.strTab.base.shAddralign = 2 ^ k3)
    (h4 : ∀ r ∈ st.relTextSections, IsPow2 r.base.shAddralign)
    (h5 : ∀ r ∈ st.relDataSections, IsPow2 r.base.shAddralign)
    (h6 : ∀ r ∈ st.relRoDataSections, IsPow2 r.base.shAddralign) :
    (∀ (f : List Nat) (k : Nat),
      (alignFileOffset f (2 ^ k)).2 % 2 ^ k = 0 ∧
      (alignFileOffset f (2 ^ k)).1 =
        f ++ zeroPad ((alignFileOffset f (2 ^ k)).2 - f.length) ∧
      f.length ≤ (alignFileOffset f (2 ^ k)).2 ∧
      (alignFileOffset f (2 ^ k)).1.length = (alignFileOffset f (2 ^ k)).2) ∧
    out.state.shStrTab.base.fileOffset % out.state.shStrTab.base.shAddralign = 0 ∧
    out.state.symTab.base.fileOffset % out.state.symTab.base.shAddralign = 0 ∧
    out.state.strTab.base.fileOffset % out.state.strTab.base.shAddralign = 0 ∧
    (∀ r ∈ out.state.relTextSections, r.base.fileOffset % r.base.shAddralign = 0) ∧
    (∀ r ∈ out.state.relDataSections, r.base.fileOffset % r.base.shAddralign = 0) ∧
    (∀ r ∈ out.state.relRoDataSections, r.base.fileOffset % r.base.shAddralign = 0) ∧
    out.shOffset % (if st.isELF64 then 8 else 4) = 0 ∧
    (∀ (fname : String) (isInt : Bool) (asm : Assembler) (s : ObjectWriterState),
      s.textSections = [] →
      ∀ t ∈ (writeFunctionCode fname isInt asm s).textSections, t.fileOffset % 32 = 0) ∧
    (∀ (ty : IceType) (pool : List PoolConstant) (s : ObjectWriterState),
      ∀ sec ∈ (writeConstantPool ty pool s).roDataSections,
        sec ∈ s.roDataSections ∨ sec.fileOffset % sec.shAddralign = 0) ∧
    (ehdrSize st.isELF64 ≤ st.str.length → st.str.length ≤ out.state.str.length) := by
  obtain ⟨e1, e2, ⟨fy, e3⟩, e4, ⟨fz, e5⟩, e6⟩ := finalizeSections_fixed_offsets st
  obtain ⟨r1, r2, r3⟩ := finalizeSections_rels_aligned st h4 h5 h6
  rw [writeNonUserSections] at h
  split at h
  case h_2 => cases h
  case h_1 hdr heq =>
    injection h with h0
    subst h0
    have hE : (finalizeSections st).1.isELF64 = st.isELF64 := rfl
    refine ⟨fun f k => alignFileOffset_spec f k, ?_, ?_, ?_, r1, r2, r3,
      finalizeSections_shOffset_aligned st, ?_, ?_, ?_⟩
    · show (finalizeSections st).1.shStrTab.base.fileOffset %
        (finalizeSections st).1.shStrTab.base.shAddralign = 0
      rw [e1, e2, h1]
      exact (alignFileOffset_spec _ k1).1
    · show (finalizeSections st).1.symTab.base.fileOffset %
        (finalizeSections st).1.symTab.base.shAddralign = 0
      rw [e3, e4, h2]
      exact (alignFileOffset_spec _ k2).1
    · show (finalizeSections st).1.strTab.base.fileOffset %
        (finalizeSections st).1.strTab.base.shAddralign = 0
      rw [e5, e6, h3]
      exact (alignFileOffset_spec _ k3).1
    · intro fname isInt asm s hts t ht
      simp only [writeFunctionCode, hts, apply_ite ObjectWriterState.textSections,
        ite_self] at ht
      simp only [List.mem_singleton] at ht
      subst ht
      exact alignFileOffset_mod _ _ ⟨5, by norm_num⟩
    · intro ty pool s sec hmem
      by_cases hp : pool = []
      · subst hp
        exact Or.inl hmem
      · rw [writeConstantPool, if_neg (by simp [hp] : ¬(pool.isEmpty = true))] at hmem
        simp only [poolLoop_spec] at hmem
        rcases List.mem_append.mp hmem with hm | hm
        · exact Or.inl hm
        · rw [List.mem_singleton] at hm
          subst hm
          refine Or.inr (alignFileOffset_mod _ _ ?_)
          cases ty <;>
            first
              | exact ⟨0, rfl⟩
              | exact ⟨1, rfl⟩
              | exact ⟨2, rfl⟩
              | exact ⟨3, rfl⟩
    · intro hge
      have hlen := writeELFHeaderInternal_length _ _ _ _ _ _ _ heq
      rw [hE] at hlen
      have hm := finalizeSections_str_mono st
      show st.str.length ≤ (hdr ++ (finalizeSections st).1.str.drop hdr.length).length
      rw [List.length_append, List.length_drop, hlen]
      omega

/-- Witness for C8 on the empty x86-64 module: the symbol table's file
offset is a multiple of its alignment 8 and the section-header table offset
is a multiple of 8. -/
theorem c8_aligned_offsets_witness :
    ∃ out, writeNonUserSections x8664Writer = some out ∧
      out.state.symTab.base.fileOffset % out.state.symTab.base.shAddralign = 0 ∧
      out.shOffset % 8 = 0 := by
  have hs : (writeNonUserSections x8664Writer).isSome = true := by decide
  obtain ⟨out, hout⟩ := Option.isSome_iff_exists.mp hs
  have hn1 : x8664Writer.relTextSections = [] := by decide
  have hn2 : x8664Writer.relDataSections = [] := by decide
  have hn3 : x8664Writer.relRoDataSections = [] := by decide
  obtain ⟨_, _, hsym, _, _, _, _, hsho, _, _, _⟩ :=
    c8_aligned_offsets_and_zero_padding x8664Writer out 0 3 0 hout rfl rfl rfl
      (fun r hr => absurd hr (by rw [hn1]; simp))
      (fun r hr => absurd hr (by rw [hn2]; simp))
      (fun r hr => absurd hr (by rw [hn3]; simp))
  exact ⟨out, hout, hsym, hsho⟩

end Ice
